import Mathlib

/-!
# Verification of the order persistence and retrieval subsystem

Shallow embedding of the Express/Postgres backend (`server.js` and its
companion source file): the relational tables `produtos`, `pedidos`,
`itens_do_pedido` and `complementos_do_item` become lists of rows, and each
route handler becomes a function on that state.  Transactions are modelled by
running the handler's inserts/updates on a working copy of the state: a
failure oracle `ok : Nat → Bool` decides whether the n-th SQL statement of
the transaction succeeds, a failed statement aborts the handler (the `catch`
branch issues ROLLBACK, so the original state is returned), and the connection
/ query activity of a handler is recorded as a list of events mirroring the
`getClient / BEGIN / ... / COMMIT-ROLLBACK / release` structure of the code.
-/

namespace NeonOrders

/-! ## Relational rows (section 6 of the schema, columns as used by the code) -/

/-- A row of the `produtos` table. -/
structure Produto where
  id : Nat
  nome : String
  descricao : Option String
  preco : Int
  categoria : String
  imagem_url : Option String
  num_complementos_gratis : Nat
deriving DecidableEq, Repr

/-- A row of the `pedidos` table (order header). -/
structure PedidoRow where
  id_pedido : String
  nome_cliente : String
  email_cliente : Option String
  tipo_entrega : String
  endereco_entrega : Option String
  numero_mesa : Option Nat
  observacoes : String
  metodo_pagamento : String
  troco_para : Option Int
  valor_total : Int
  status : String
  data_hora_envio : Nat
deriving DecidableEq, Repr

/-- A row of the `itens_do_pedido` table (order line item);
`id_item_pedido` is the server-generated identifier. -/
structure ItemRow where
  id_item_pedido : Nat
  id_pedido : String
  id_produto : Nat
  nome_produto : String
  quantidade : Nat
  preco_base_produto : Int
  preco_unitario_com_complementos : Int
  total_item_preco : Int
deriving DecidableEq, Repr

/-- A row of the `complementos_do_item` table (add-on selection of a line item). -/
structure CompRow where
  id_item_pedido : Nat
  id_complemento_disponivel : Nat
  nome_complemento : String
  preco_complemento : Int
deriving DecidableEq, Repr

/-- The database state: the four tables plus the serial counter backing
generated `id_item_pedido` values (Postgres serials start at 1). -/
structure DB where
  produtos : List Produto
  pedidos : List PedidoRow
  itens : List ItemRow
  comps : List CompRow
  nextItemId : Nat
deriving DecidableEq, Repr

/-! ## Request payloads (shapes destructured from `req.body` by the handlers) -/

/-- An add-on selection `{id, name, price}` inside an order item payload. -/
structure CompPayload where
  id : Nat
  name : String
  price : Int
deriving DecidableEq, Repr

/-- An item of the order payload. -/
structure ItemPayload where
  productId : Nat
  name : String
  quantity : Nat
  basePrice : Int
  unitPriceWithComplements : Int
  totalItemPrice : Int
  complements : List CompPayload
deriving DecidableEq, Repr

/-- The `deliveryOption` object of the order payload. -/
structure DeliveryOption where
  type : String
  address : Option String
  tableNumber : Option Nat
deriving DecidableEq, Repr

/-- The body of `POST /api/pedidos`. -/
structure OrderPayload where
  orderId : String
  customerName : String
  customerEmail : Option String
  items : List ItemPayload
  deliveryOption : DeliveryOption
  observations : Option String
  paymentMethod : String
  trocoPara : Option Int
  total : Int
  status : Option String
  sentAt : Option Nat
deriving DecidableEq, Repr

/-- One entry of the `PUT /api/pedidos` batch body; either field may be
absent (or empty, which JavaScript's `&&` treats the same way). -/
structure StatusUpdate where
  orderId : Option String
  status : Option String
deriving DecidableEq, Repr

/-! ## JavaScript truthiness coercions used by the handlers (`x || y` etc.) -/

/-- `s || null` for an optional string: the empty string is falsy. -/
def strOrNull : Option String → Option String
  | some "" => none
  | x => x

/-- `n || null` for an optional number: `0` is falsy. -/
def natOrNull : Option Nat → Option Nat
  | some 0 => none
  | x => x

/-- `n || null` for an optional (possibly negative) number: `0` is falsy. -/
def intOrNull : Option Int → Option Int
  | some 0 => none
  | x => x

/-! ## Order Writer: `POST /api/pedidos` -/

/-- The header row built from the payload by the `INSERT INTO pedidos`
parameter list (with the `|| null` / `|| ''` / `|| 'pendente'` defaults and
`sentAt ? new Date(sentAt) : new Date()`). -/
def pedidoRowOfPayload (p : OrderPayload) (now : Nat) : PedidoRow :=
  { id_pedido := p.orderId
    nome_cliente := p.customerName
    email_cliente := strOrNull p.customerEmail
    tipo_entrega := p.deliveryOption.type
    endereco_entrega := strOrNull p.deliveryOption.address
    numero_mesa := natOrNull p.deliveryOption.tableNumber
    observacoes := (strOrNull p.observations).getD ""
    metodo_pagamento := p.paymentMethod
    troco_para := intOrNull p.trocoPara
    valor_total := p.total
    status := (strOrNull p.status).getD "pendente"
    data_hora_envio := p.sentAt.getD now }

/-- `INSERT INTO pedidos ... ON CONFLICT (id_pedido) DO NOTHING`. -/
def insertPedido (db : DB) (r : PedidoRow) : DB :=
  if ∃ q ∈ db.pedidos, q.id_pedido = r.id_pedido then db
  else { db with pedidos := db.pedidos ++ [r] }

/-- The line-item row inserted for a payload item, with generated id `iid`. -/
def mkItemRow (oid : String) (iid : Nat) (it : ItemPayload) : ItemRow :=
  { id_item_pedido := iid
    id_pedido := oid
    id_produto := it.productId
    nome_produto := it.name
    quantidade := it.quantity
    preco_base_produto := it.basePrice
    preco_unitario_com_complementos := it.unitPriceWithComplements
    total_item_preco := it.totalItemPrice }

/-- The add-on row inserted for a payload complement, under line item `iid`. -/
def mkCompRow (iid : Nat) (c : CompPayload) : CompRow :=
  { id_item_pedido := iid
    id_complemento_disponivel := c.id
    nome_complemento := c.name
    preco_complemento := c.price }

/-- `INSERT INTO itens_do_pedido ... RETURNING id_item_pedido`:
appends the row with the generated serial and advances the serial. -/
def insItem (db : DB) (oid : String) (it : ItemPayload) : DB :=
  { db with
      itens := db.itens ++ [mkItemRow oid db.nextItemId it]
      nextItemId := db.nextItemId + 1 }

/-- `INSERT INTO complementos_do_item ...`. -/
def insComp (db : DB) (iid : Nat) (c : CompPayload) : DB :=
  { db with comps := db.comps ++ [mkCompRow iid c] }

/-- The inner `for (const comp of item.complements)` loop, failure-free. -/
def writeComps (iid : Nat) : List CompPayload → DB → DB
  | [], db => db
  | c :: rest, db => writeComps iid rest (insComp db iid c)

/-- The `for (const item of items)` loop, failure-free: insert the item row,
capture its generated id, insert its add-on rows. -/
def writeItems (oid : String) : List ItemPayload → DB → DB
  | [], db => db
  | it :: rest, db =>
      writeItems oid rest (writeComps db.nextItemId it.complements (insItem db oid it))

/-- The full sequence of inserts of a `POST /api/pedidos` transaction,
failure-free: header (insert-or-ignore), then items, then add-ons. -/
def writePedido (now : Nat) (db : DB) (p : OrderPayload) : DB :=
  writeItems p.orderId p.items (insertPedido db (pedidoRowOfPayload p now))

/-- Number of `INSERT` statements issued by a `POST /api/pedidos`
transaction: one header plus, per item, the item row and its add-on rows. -/
def numInserts (p : OrderPayload) : Nat :=
  1 + (p.items.map (fun it => 1 + it.complements.length)).sum

/-- The `for (const comp ...)` loop under the failure oracle: the statement
counter `c` indexes `ok`; a failed insert aborts with the number of
statements attempted so far. -/
def runComps (ok : Nat → Bool) (iid : Nat) :
    List CompPayload → DB → Nat → Except Nat (DB × Nat)
  | [], db, c => .ok (db, c)
  | comp :: rest, db, c =>
    if ok c then runComps ok iid rest (insComp db iid comp) (c + 1)
    else .error (c + 1)

/-- The `for (const item ...)` loop under the failure oracle. -/
def runItems (ok : Nat → Bool) (oid : String) :
    List ItemPayload → DB → Nat → Except Nat (DB × Nat)
  | [], db, c => .ok (db, c)
  | it :: rest, db, c =>
    if ok c then
      match runComps ok db.nextItemId it.complements (insItem db oid it) (c + 1) with
      | .ok (db', c') => runItems ok oid rest db' c'
      | .error n => .error n
    else .error (c + 1)

/-- Pool / query events of a transactional handler, mirroring
`db.getClient()`, `BEGIN`, the data statements, `COMMIT` / `ROLLBACK`
(in the `catch` branch) and the `finally { client.release() }`. -/
inductive DbEvent where
  | acquire
  | beginTx
  | exec
  | commitTx
  | rollbackTx
  | release
deriving DecidableEq, Repr

/-- Result of a transactional handler: the database visible afterwards,
whether the handler responded with success (201/200) or with the 500 error
branch, and the connection/query trace. -/
structure HRes where
  db : DB
  success : Bool
  events : List DbEvent
deriving DecidableEq, Repr

/-- `POST /api/pedidos` under the failure oracle: BEGIN, header insert
(statement 0), the item/add-on loop, then COMMIT on success; any statement
failure takes the `catch` branch, which rolls the transaction back (the
original state stays visible) and still releases the connection. -/
def postPedidos (ok : Nat → Bool) (now : Nat) (db : DB) (p : OrderPayload) : HRes :=
  let r : Except Nat (DB × Nat) :=
    if ok 0 then
      runItems ok p.orderId p.items (insertPedido db (pedidoRowOfPayload p now)) 1
    else .error 1
  match r with
  | .ok (db', c) =>
      ⟨db', true, [.acquire, .beginTx] ++ List.replicate c DbEvent.exec ++ [.commitTx, .release]⟩
  | .error n =>
      ⟨db, false, [.acquire, .beginTx] ++ List.replicate n .exec ++ [.rollbackTx, .release]⟩

/-! ## Order Status Updater: `PUT /api/pedidos` -/

/-- `UPDATE pedidos SET status = $1 WHERE id_pedido = $2`. -/
def updateStatus (db : DB) (oid st : String) : DB :=
  { db with
      pedidos := db.pedidos.map (fun q =>
        if q.id_pedido = oid then { q with status := st } else q) }

/-- JavaScript's `order.orderId && order.status` guard: both fields must be
present and non-empty (the empty string is falsy). -/
def entryValid (e : StatusUpdate) : Prop :=
  match e.orderId, e.status with
  | some oid, some st => oid ≠ "" ∧ st ≠ ""
  | _, _ => False

instance (e : StatusUpdate) : Decidable (entryValid e) := by
  unfold entryValid
  match e.orderId, e.status with
  | some oid, some st => exact inferInstance
  | some _, none => exact inferInstance
  | none, some _ => exact inferInstance
  | none, none => exact inferInstance

/-- The batch loop of `PUT /api/pedidos`, failure-free: valid entries run the
`UPDATE`, invalid entries are skipped (`console.warn`, no effect). -/
def applyUpdates : List StatusUpdate → DB → DB
  | [], db => db
  | e :: rest, db =>
    match e.orderId, e.status with
    | some oid, some st =>
      if oid ≠ "" ∧ st ≠ "" then applyUpdates rest (updateStatus db oid st)
      else applyUpdates rest db
    | _, _ => applyUpdates rest db

/-- Number of `UPDATE` statements a batch issues (skipped entries issue none). -/
def numUpdates (body : List StatusUpdate) : Nat :=
  body.countP (fun e => decide (entryValid e))

/-- The batch loop under the failure oracle. -/
def runUpdates (ok : Nat → Bool) :
    List StatusUpdate → DB → Nat → Except Nat (DB × Nat)
  | [], db, c => .ok (db, c)
  | e :: rest, db, c =>
    match e.orderId, e.status with
    | some oid, some st =>
      if oid ≠ "" ∧ st ≠ "" then
        if ok c then runUpdates ok rest (updateStatus db oid st) (c + 1)
        else .error (c + 1)
      else runUpdates ok rest db c
    | _, _ => runUpdates ok rest db c

/-- `PUT /api/pedidos` under the failure oracle: one transaction around all
updates; any update failure rolls back the whole batch. -/
def putPedidos (ok : Nat → Bool) (db : DB) (body : List StatusUpdate) : HRes :=
  match runUpdates ok body db 0 with
  | .ok (db', c) =>
      ⟨db', true, [.acquire, .beginTx] ++ List.replicate c DbEvent.exec ++ [.commitTx, .release]⟩
  | .error n =>
      ⟨db, false, [.acquire, .beginTx] ++ List.replicate n .exec ++ [.rollbackTx, .release]⟩

/-! ## Catalog: `PUT /api/produtos` (bulk replace) and `GET /api/produtos` -/

/-- One product object of the `PUT /api/produtos` body. -/
structure ProdPayload where
  id : Nat
  nome : String
  descricao : Option String
  preco : Int
  imagem_url : Option String
  num_complementos_gratis : Option Nat
deriving DecidableEq, Repr

/-- The row inserted for a product under category key `key`
(`descricao || null`, `imagem_url || null`, `num_complementos_gratis || 0`). -/
def mkProdutoRow (key : String) (pl : ProdPayload) : Produto :=
  { id := pl.id
    nome := pl.nome
    descricao := strOrNull pl.descricao
    preco := pl.preco
    categoria := key
    imagem_url := strOrNull pl.imagem_url
    num_complementos_gratis := pl.num_complementos_gratis.getD 0 }

/-- The nested `for (const categoryKey in allProducts) / for (const product
of productsInCategory)` insert loops, failure-free. -/
def writeProds : List (String × List ProdPayload) → List Produto → List Produto
  | [], acc => acc
  | (key, ps) :: rest, acc => writeProds rest (acc ++ ps.map (mkProdutoRow key))

/-- The insert loops of `PUT /api/produtos` under the failure oracle. -/
def runProds (ok : Nat → Bool) :
    List (String × List ProdPayload) → List Produto → Nat → Except Nat (List Produto × Nat)
  | [], acc, c => .ok (acc, c)
  | (key, ps) :: rest, acc, c =>
      match goCat key ps acc c with
      | .ok (acc', c') => runProds ok rest acc' c'
      | .error n => .error n
where
  goCat (key : String) : List ProdPayload → List Produto → Nat → Except Nat (List Produto × Nat)
  | [], acc, c => .ok (acc, c)
  | pl :: ps, acc, c =>
      if ok c then goCat key ps (acc ++ [mkProdutoRow key pl]) (c + 1)
      else .error (c + 1)

/-- `PUT /api/produtos` under the failure oracle: BEGIN, `TRUNCATE TABLE
produtos` (statement 0), the insert loops, COMMIT; any failure rolls the
whole replacement back. -/
def putProdutos (ok : Nat → Bool) (db : DB) (body : List (String × List ProdPayload)) : HRes :=
  let r : Except Nat (List Produto × Nat) :=
    if ok 0 then runProds ok body [] 1 else .error 1
  match r with
  | .ok (prods, c) =>
      ⟨{ db with produtos := prods }, true,
        [.acquire, .beginTx] ++ List.replicate c DbEvent.exec ++ [.commitTx, .release]⟩
  | .error n =>
      ⟨db, false, [.acquire, .beginTx] ++ List.replicate n .exec ++ [.rollbackTx, .release]⟩

/-- The grouping loop of `GET /api/produtos`: a JavaScript object keyed by
`produto.categoria` (string keys in insertion order), each key holding the
array of its products in arrival order; modelled as an association list. -/
def groupProducts (rows : List Produto) : List (String × List Produto) :=
  rows.foldl addProd []
where
  /-- Process one row: create the category bucket on first sight, else append. -/
  addProd (acc : List (String × List Produto)) (pr : Produto) :
      List (String × List Produto) :=
    match acc with
    | [] => [(pr.categoria, [pr])]
    | (k, ps) :: rest =>
      if k = pr.categoria then (k, ps ++ [pr]) :: rest
      else (k, ps) :: addProd rest pr

/-- `ORDER BY categoria, nome` on the products table. -/
def prodLe (a b : Produto) : Prop :=
  a.categoria < b.categoria ∨ (a.categoria = b.categoria ∧ a.nome ≤ b.nome)

instance : DecidableRel prodLe := fun a b => by
  unfold prodLe; infer_instance

/-- `GET /api/produtos`: fetch products ordered by category then name and
group them by category. -/
def getProdutos (db : DB) : List (String × List Produto) :=
  groupProducts (List.insertionSort prodLe db.produtos)

/-! ## Order Reader: `GET /api/pedidos`

The query LEFT JOINs `pedidos` with `itens_do_pedido` and
`complementos_do_item`, ordered by `data_hora_envio DESC, id_item_pedido,
id_complemento_disponivel`, producing one flattened row per
(order, item, add-on) combination with NULLs for missing children. -/

/-- A flattened row of the outer-joined query: order columns are always
present, item and add-on columns are NULL (`none`) when the LEFT JOIN found
no child row. -/
structure JoinRow where
  id_pedido : String
  nome_cliente : String
  email_cliente : Option String
  tipo_entrega : String
  endereco_entrega : Option String
  numero_mesa : Option Nat
  observacoes : String
  metodo_pagamento : String
  troco_para : Option Int
  valor_total : Int
  status : String
  data_hora_envio : Nat
  id_item_pedido : Option Nat
  id_produto : Option Nat
  nome_produto : Option String
  quantidade : Option Nat
  preco_base_produto : Option Int
  preco_unitario_com_complementos : Option Int
  total_item_preco : Option Int
  id_complemento_disponivel : Option Nat
  nome_complemento : Option String
  preco_complemento : Option Int
deriving DecidableEq, Repr

/-- Build one joined row from an order row and optional item / add-on rows. -/
def rowOfPIC (p : PedidoRow) (i : Option ItemRow) (c : Option CompRow) : JoinRow :=
  { id_pedido := p.id_pedido
    nome_cliente := p.nome_cliente
    email_cliente := p.email_cliente
    tipo_entrega := p.tipo_entrega
    endereco_entrega := p.endereco_entrega
    numero_mesa := p.numero_mesa
    observacoes := p.observacoes
    metodo_pagamento := p.metodo_pagamento
    troco_para := p.troco_para
    valor_total := p.valor_total
    status := p.status
    data_hora_envio := p.data_hora_envio
    id_item_pedido := i.map (·.id_item_pedido)
    id_produto := i.map (·.id_produto)
    nome_produto := i.map (·.nome_produto)
    quantidade := i.map (·.quantidade)
    preco_base_produto := i.map (·.preco_base_produto)
    preco_unitario_com_complementos := i.map (·.preco_unitario_com_complementos)
    total_item_preco := i.map (·.total_item_preco)
    id_complemento_disponivel := c.map (·.id_complemento_disponivel)
    nome_complemento := c.map (·.nome_complemento)
    preco_complemento := c.map (·.preco_complemento) }

/-- LEFT JOIN of one line item with its add-on rows: one row per add-on,
or a single row with NULL add-on columns when the item has none. -/
def itemJoinRows (db : DB) (p : PedidoRow) (i : ItemRow) : List JoinRow :=
  match db.comps.filter (fun c => c.id_item_pedido = i.id_item_pedido) with
  | [] => [rowOfPIC p (some i) none]
  | cs => cs.map (fun c => rowOfPIC p (some i) (some c))

/-- LEFT JOIN of one order with its line items (and their add-ons): a single
row with NULL item columns when the order has no items. -/
def pedidoJoinRows (db : DB) (p : PedidoRow) : List JoinRow :=
  match db.itens.filter (fun i => i.id_pedido = p.id_pedido) with
  | [] => [rowOfPIC p none none]
  | is => is.flatMap (itemJoinRows db p)

/-- The unsorted multiset of rows produced by the outer join. -/
def flattenJoin (db : DB) : List JoinRow :=
  db.pedidos.flatMap (pedidoJoinRows db)

/-- Strict comparison on a NULLS-LAST nullable sort key: SQL ascending order
places NULL after every value. -/
def oltN : Option Nat → Option Nat → Prop
  | some _, none => True
  | some a, some b => a < b
  | none, _ => False

/-- Non-strict NULLS-LAST comparison. -/
def oleN (a b : Option Nat) : Prop := oltN a b ∨ a = b

instance : DecidableRel oltN := fun a b => by
  unfold oltN
  match a, b with
  | some _, none => exact inferInstance
  | some _, some _ => exact inferInstance
  | none, none => exact inferInstance
  | none, some _ => exact inferInstance

instance : DecidableRel oleN := fun a b => by
  unfold oleN; infer_instance

/-- The `ORDER BY p.data_hora_envio DESC, i.id_item_pedido,
c.id_complemento_disponivel` comparison on joined rows. -/
def rowLe (a b : JoinRow) : Prop :=
  b.data_hora_envio < a.data_hora_envio ∨
    (b.data_hora_envio = a.data_hora_envio ∧
      (oltN a.id_item_pedido b.id_item_pedido ∨
        (a.id_item_pedido = b.id_item_pedido ∧
          oleN a.id_complemento_disponivel b.id_complemento_disponivel)))

instance : DecidableRel rowLe := fun a b => by
  unfold rowLe; infer_instance

theorem oltN_trans {a b c : Option Nat} (h1 : oltN a b) (h2 : oltN b c) : oltN a c := by
  match a, b, c with
  | some a, some b, none => trivial
  | some a, some b, some c => exact Nat.lt_trans h1 h2
  | some a, none, _ => cases h2
  | none, _, _ => cases h1

theorem oltN_irrefl {a : Option Nat} (h : oltN a a) : False := by
  match a with
  | none => exact h
  | some a => exact Nat.lt_irrefl a h

theorem oltN_total (a b : Option Nat) : oltN a b ∨ a = b ∨ oltN b a := by
  match a, b with
  | none, none => right; left; rfl
  | none, some b => right; right; trivial
  | some a, none => left; trivial
  | some a, some b =>
    rcases Nat.lt_trichotomy a b with h | h | h
    · left; exact h
    · right; left; rw [h]
    · right; right; exact h

instance : IsTotal JoinRow rowLe where
  total a b := by
    unfold rowLe
    rcases Nat.lt_trichotomy a.data_hora_envio b.data_hora_envio with h | h | h
    · right; left; exact h
    · rcases oltN_total a.id_item_pedido b.id_item_pedido with hi | hi | hi
      · left; right; exact ⟨h.symm, Or.inl hi⟩
      · rcases oltN_total a.id_complemento_disponivel b.id_complemento_disponivel
          with hc | hc | hc
        · left; right; exact ⟨h.symm, Or.inr ⟨hi, Or.inl hc⟩⟩
        · left; right; exact ⟨h.symm, Or.inr ⟨hi, Or.inr hc⟩⟩
        · right; right; exact ⟨h, Or.inr ⟨hi.symm, Or.inl hc⟩⟩
      · right; right; exact ⟨h, Or.inl hi⟩
    · left; left; exact h

instance : IsTrans JoinRow rowLe where
  trans a b c hab hbc := by
    unfold rowLe at *
    rcases hab with hab | ⟨hts1, hab⟩
    · rcases hbc with hbc | ⟨hts2, _⟩
      · left; omega
      · left; omega
    · rcases hbc with hbc | ⟨hts2, hbc⟩
      · left; omega
      · right
        refine ⟨by omega, ?_⟩
        rcases hab with hab | ⟨hie1, hab⟩
        · rcases hbc with hbc | ⟨hie2, _⟩
          · exact Or.inl (oltN_trans hab hbc)
          · exact Or.inl (hie2 ▸ hab)
        · rcases hbc with hbc | ⟨hie2, hbc⟩
          · exact Or.inl (hie1 ▸ hbc)
          · refine Or.inr ⟨hie1.trans hie2, ?_⟩
            rcases hab with hab | hab
            · rcases hbc with hbc | hbc
              · exact Or.inl (oltN_trans hab hbc)
              · exact Or.inl (hbc ▸ hab)
            · rcases hbc with hbc | hbc
              · exact Or.inl (hab ▸ hbc)
              · exact Or.inr (hab.trans hbc)

/-- All rows of the order-listing query, in the `ORDER BY` order. -/
def sortedRows (db : DB) : List JoinRow :=
  List.insertionSort rowLe (flattenJoin db)

/-! ### Reconstruction of the nested structure (`ordersMap`) -/

/-- An entry of an item's `complements` array, exactly the fields the code
copies from the row (the guard makes `id` a non-null, truthy number at push
time, but the stored value is the raw column). -/
structure OutComp where
  id : Option Nat
  name : Option String
  price : Option Int
deriving DecidableEq, Repr

/-- An entry of an order's `items` array. -/
structure OutItem where
  id_item_pedido : Option Nat
  productId : Option Nat
  name : Option String
  quantity : Option Nat
  basePrice : Option Int
  unitPriceWithComplements : Option Int
  totalItemPrice : Option Int
  complements : List OutComp
deriving DecidableEq, Repr

/-- An entry of the response array (one order with nested items). -/
structure OutOrder where
  orderId : String
  customerName : String
  customerEmail : Option String
  deliveryType : String
  deliveryAddress : Option String
  deliveryTableNumber : Option Nat
  observations : String
  paymentMethod : String
  trocoPara : Option Int
  total : Int
  status : String
  sentAt : Nat
  items : List OutItem
deriving DecidableEq, Repr

/-- JavaScript truthiness of a nullable numeric column
(`row.id_item_pedido && ...`): NULL and 0 are falsy. -/
def truthyN : Option Nat → Prop
  | none => False
  | some n => n ≠ 0

instance (a : Option Nat) : Decidable (truthyN a) := by
  unfold truthyN
  match a with
  | none => exact inferInstance
  | some _ => exact inferInstance

/-- The order object created on first sight of an order id (`ordersMap.set`). -/
def mkOrder (row : JoinRow) : OutOrder :=
  { orderId := row.id_pedido
    customerName := row.nome_cliente
    customerEmail := row.email_cliente
    deliveryType := row.tipo_entrega
    deliveryAddress := row.endereco_entrega
    deliveryTableNumber := row.numero_mesa
    observations := row.observacoes
    paymentMethod := row.metodo_pagamento
    trocoPara := row.troco_para
    total := row.valor_total
    status := row.status
    sentAt := row.data_hora_envio
    items := [] }

/-- The item object pushed on first sight of a line-item id. -/
def mkItem (row : JoinRow) : OutItem :=
  { id_item_pedido := row.id_item_pedido
    productId := row.id_produto
    name := row.nome_produto
    quantity := row.quantidade
    basePrice := row.preco_base_produto
    unitPriceWithComplements := row.preco_unitario_com_complementos
    totalItemPrice := row.total_item_preco
    complements := [] }

/-- The complement object pushed on first sight of an add-on id on an item. -/
def mkComp (row : JoinRow) : OutComp :=
  { id := row.id_complemento_disponivel
    name := row.nome_complemento
    price := row.preco_complemento }

/-- `currentItem = order.items.find(item => item.id_item_pedido ===
row.id_item_pedido)` followed by the guarded `complements.push`: update the
first item whose id matches the row, appending the add-on if its id is truthy
and not yet present on that item. -/
def pushComp (row : JoinRow) : List OutItem → List OutItem
  | [] => []
  | it :: rest =>
    if it.id_item_pedido = row.id_item_pedido then
      (if truthyN row.id_complemento_disponivel ∧
          ¬ ∃ c ∈ it.complements, c.id = row.id_complemento_disponivel
       then { it with complements := it.complements ++ [mkComp row] }
       else it) :: rest
    else it :: pushComp row rest

/-- Everything the loop body does to the order of the current row: push a new
item on first sight of a truthy line-item id, then attach the add-on. -/
def updOrder (row : JoinRow) (o : OutOrder) : OutOrder :=
  let items :=
    if truthyN row.id_item_pedido ∧
        ¬ ∃ it ∈ o.items, it.id_item_pedido = row.id_item_pedido
    then o.items ++ [mkItem row]
    else o.items
  { o with items := pushComp row items }

/-- Apply `f` to the (unique) map entry keyed by `oid`. -/
def updateFirstOrder (oid : String) (f : OutOrder → OutOrder) :
    List OutOrder → List OutOrder
  | [] => []
  | o :: rest =>
    if o.orderId = oid then f o :: rest
    else o :: updateFirstOrder oid f rest

/-- The `result.rows.forEach` body: create the order entry on first sight of
its id, then update it with the row's item / add-on data. -/
def addRow (acc : List OutOrder) (row : JoinRow) : List OutOrder :=
  let acc' :=
    if ∃ o ∈ acc, o.orderId = row.id_pedido then acc
    else acc ++ [mkOrder row]
  updateFirstOrder row.id_pedido (updOrder row) acc'

/-- `Array.from(ordersMap.values())` after folding all rows (a JavaScript
`Map` preserves key insertion order). -/
def reconstruct (rows : List JoinRow) : List OutOrder :=
  rows.foldl addRow []

/-- `GET /api/pedidos`: run the joined query and reconstruct the nested
orders. -/
def getPedidos (db : DB) : List OutOrder :=
  reconstruct (sortedRows db)

/-! ## Lemmas: the Order Writer transaction -/

/-- Statement count of the item/add-on insert loops for an item list. -/
def insertsCost (its : List ItemPayload) : Nat :=
  (its.map (fun it => 1 + it.complements.length)).sum

theorem numInserts_eq (p : OrderPayload) : numInserts p = 1 + insertsCost p.items := rfl

theorem runComps_all_ok (ok : Nat → Bool) (iid : Nat) :
    ∀ (cs : List CompPayload) (db : DB) (c : Nat),
    (∀ j, j < cs.length → ok (c + j) = true) →
    runComps ok iid cs db c = .ok (writeComps iid cs db, c + cs.length)
  | [], db, c, _ => by simp [runComps, writeComps]
  | comp :: rest, db, c, h => by
      have h0 : ok c = true := by
        simpa using h 0 (by simp only [List.length_cons]; omega)
      have hrest : ∀ j, j < rest.length → ok (c + 1 + j) = true := by
        intro j hj
        have := h (j + 1) (by simp only [List.length_cons]; omega)
        rwa [show c + (j + 1) = c + 1 + j by omega] at this
      rw [runComps, if_pos h0,
        runComps_all_ok ok iid rest (insComp db iid comp) (c + 1) hrest]
      simp only [writeComps, List.length_cons]
      exact congrArg _ (congrArg _ (by omega))

theorem runComps_ok_inv (ok : Nat → Bool) (iid : Nat) :
    ∀ (cs : List CompPayload) (db : DB) (c : Nat) (x : DB × Nat),
    runComps ok iid cs db c = .ok x →
    ∀ j, j < cs.length → ok (c + j) = true
  | [], _, _, _, _ => by intro j hj; simp at hj
  | comp :: rest, db, c, x, hx => by
      intro j hj
      rw [runComps] at hx
      by_cases h0 : ok c = true
      · rw [if_pos h0] at hx
        match j with
        | 0 => simpa using h0
        | j + 1 =>
          have := runComps_ok_inv ok iid rest (insComp db iid comp) (c + 1) x hx j
            (by simp at hj; omega)
          rwa [show c + 1 + j = c + (j + 1) by omega] at this
      · rw [if_neg h0] at hx; cases hx

theorem runItems_all_ok (ok : Nat → Bool) (oid : String) :
    ∀ (its : List ItemPayload) (db : DB) (c : Nat),
    (∀ j, j < insertsCost its → ok (c + j) = true) →
    runItems ok oid its db c = .ok (writeItems oid its db, c + insertsCost its)
  | [], db, c, _ => by simp [runItems, writeItems, insertsCost]
  | it :: rest, db, c, h => by
      have hcost : insertsCost (it :: rest) =
          1 + it.complements.length + insertsCost rest := by
        simp only [insertsCost, List.map_cons, List.sum_cons]
      rw [hcost] at h
      have h0 : ok c = true := by
        simpa using h 0 (by omega)
      have hcomps : ∀ j, j < it.complements.length → ok (c + 1 + j) = true := by
        intro j hj
        have := h (j + 1) (by omega)
        rwa [show c + (j + 1) = c + 1 + j by omega] at this
      have hrest : ∀ j, j < insertsCost rest →
          ok (c + 1 + it.complements.length + j) = true := by
        intro j hj
        have := h (1 + it.complements.length + j) (by omega)
        rwa [show c + (1 + it.complements.length + j) =
          c + 1 + it.complements.length + j by omega] at this
      simp only [runItems, if_pos h0,
        runComps_all_ok ok db.nextItemId it.complements (insItem db oid it) (c + 1) hcomps,
        runItems_all_ok ok oid rest _ _ hrest, writeItems, hcost]
      exact congrArg _ (congrArg _ (by omega))

theorem runItems_ok_inv (ok : Nat → Bool) (oid : String) :
    ∀ (its : List ItemPayload) (db : DB) (c : Nat) (x : DB × Nat),
    runItems ok oid its db c = .ok x →
    ∀ j, j < insertsCost its → ok (c + j) = true
  | [], _, _, _, _ => by intro j hj; simp [insertsCost] at hj
  | it :: rest, db, c, x, hx => by
      intro j hj
      have hcost : insertsCost (it :: rest) =
          1 + it.complements.length + insertsCost rest := by
        simp only [insertsCost, List.map_cons, List.sum_cons]
      rw [hcost] at hj
      rw [runItems] at hx
      by_cases h0 : ok c = true
      · rw [if_pos h0] at hx
        rcases hcase : runComps ok db.nextItemId it.complements (insItem db oid it) (c + 1)
          with y | ⟨ydb, yc⟩
        · rw [hcase] at hx; cases hx
        · rw [hcase] at hx
          have hcomps := runComps_ok_inv ok db.nextItemId it.complements
            (insItem db oid it) (c + 1) (ydb, yc) hcase
          have hccount : yc = c + 1 + it.complements.length := by
            have := runComps_all_ok ok db.nextItemId it.complements (insItem db oid it)
              (c + 1) hcomps
            rw [hcase] at this
            cases this
            rfl
          have hrest := runItems_ok_inv ok oid rest ydb yc x hx
          rcases Nat.lt_or_ge j (1 + it.complements.length) with hlt | hge
          · match j with
            | 0 => simpa using h0
            | j + 1 =>
              have := hcomps j (by omega)
              rwa [show c + 1 + j = c + (j + 1) by omega] at this
          · have := hrest (j - (1 + it.complements.length)) (by omega)
            rw [hccount] at this
            rwa [show c + 1 + it.complements.length + (j - (1 + it.complements.length)) =
              c + j by omega] at this
      · rw [if_neg h0] at hx; cases hx

/-- If every statement of the transaction succeeds the failing runner agrees
with the failure-free writer; spelled for the full handler below. -/
theorem runItems_ok_val (ok : Nat → Bool) (oid : String) (its : List ItemPayload)
    (db : DB) (c : Nat) (x : DB × Nat) (hx : runItems ok oid its db c = .ok x) :
    x = (writeItems oid its db, c + insertsCost its) := by
  have hall := runItems_ok_inv ok oid its db c x hx
  have := runItems_all_ok ok oid its db c hall
  rw [hx] at this
  cases this
  rfl

theorem numInserts_pos (p : OrderPayload) : 0 < numInserts p := by
  rw [numInserts_eq]; omega

/-- C1: the `POST /api/pedidos` transaction commits exactly when every insert
(header, items, add-ons) succeeds; on any failure the visible state is the
unchanged original; on success the visible state is the full write. -/
theorem post_pedidos_atomic (ok : Nat → Bool) (now : Nat) (db : DB) (p : OrderPayload) :
    ((postPedidos ok now db p).success = true ↔ ∀ i, i < numInserts p → ok i = true)
    ∧ ((postPedidos ok now db p).success = false → (postPedidos ok now db p).db = db)
    ∧ ((postPedidos ok now db p).success = true →
        (postPedidos ok now db p).db = writePedido now db p)
    ∧ ((postPedidos ok now db p).success = true →
        DbEvent.commitTx ∈ (postPedidos ok now db p).events
        ∧ DbEvent.rollbackTx ∉ (postPedidos ok now db p).events)
    ∧ ((postPedidos ok now db p).success = false →
        DbEvent.rollbackTx ∈ (postPedidos ok now db p).events
        ∧ DbEvent.commitTx ∉ (postPedidos ok now db p).events) := by
  by_cases h0 : ok 0 = true
  · rcases hr : runItems ok p.orderId p.items (insertPedido db (pedidoRowOfPayload p now)) 1
      with n | ⟨ydb, yc⟩
    · have hres : postPedidos ok now db p =
          ⟨db, false, [.acquire, .beginTx] ++ List.replicate n .exec ++
            [.rollbackTx, .release]⟩ := by
        simp only [postPedidos, if_pos h0, hr]
      have hnall : ¬ ∀ i, i < numInserts p → ok i = true := by
        intro hall
        have : runItems ok p.orderId p.items (insertPedido db (pedidoRowOfPayload p now)) 1 =
            .ok (writeItems p.orderId p.items (insertPedido db (pedidoRowOfPayload p now)),
              1 + insertsCost p.items) := by
          apply runItems_all_ok
          intro j hj
          exact hall (1 + j) (by rw [numInserts_eq]; omega)
        rw [hr] at this
        cases this
      rw [hres]
      refine ⟨by simpa using hnall, fun _ => rfl, by simp, by simp, fun _ => ?_⟩
      constructor
      · simp [List.mem_append]
      · simp [List.mem_append, List.mem_replicate]
    · have hres : postPedidos ok now db p =
          ⟨ydb, true, [.acquire, .beginTx] ++ List.replicate yc .exec ++
            [.commitTx, .release]⟩ := by
        simp only [postPedidos, if_pos h0, hr]
      have hval := runItems_ok_val ok p.orderId p.items
        (insertPedido db (pedidoRowOfPayload p now)) 1 (ydb, yc) hr
      have hydb : ydb = writePedido now db p := by
        have := congrArg Prod.fst hval
        simpa [writePedido] using this
      have hall : ∀ i, i < numInserts p → ok i = true := by
        intro i hi
        match i with
        | 0 => exact h0
        | i + 1 =>
          have := runItems_ok_inv ok p.orderId p.items
            (insertPedido db (pedidoRowOfPayload p now)) 1 (ydb, yc) hr i
            (by rw [numInserts_eq] at hi; omega)
          rwa [show 1 + i = i + 1 by omega] at this
      rw [hres]
      refine ⟨by simpa using hall, by simp, fun _ => hydb, fun _ => ?_, by simp⟩
      constructor
      · simp [List.mem_append]
      · simp [List.mem_append, List.mem_replicate]
  · have hres : postPedidos ok now db p =
        ⟨db, false, [.acquire, .beginTx] ++ List.replicate 1 .exec ++
          [.rollbackTx, .release]⟩ := by
      simp only [postPedidos, if_neg h0]
    have hnall : ¬ ∀ i, i < numInserts p → ok i = true := by
      intro hall
      exact h0 (hall 0 (numInserts_pos p))
    rw [hres]
    refine ⟨by simpa using hnall, fun _ => rfl, by simp, by simp, fun _ => ?_⟩
    constructor
    · simp [List.mem_append]
    · simp [List.mem_append, List.mem_replicate]

/-- Concrete witness data for the transactional theorems. -/
def dbW : DB :=
  ⟨[], [⟨"o1", "Ana", none, "mesa", none, some 5, "", "pix", none, 30, "pendente", 100⟩],
    [⟨1, "o1", 7, "X", 2, 10, 15, 30⟩], [⟨1, 3, "cheese", 5⟩], 2⟩

/-- Concrete order payload for the witnesses: two items, the first with one
add-on. -/
def payW : OrderPayload :=
  ⟨"o9", "Cle", some "", [⟨7, "X", 2, 10, 15, 30, [⟨3, "cheese", 5⟩]⟩,
    ⟨8, "Y", 1, 5, 5, 5, []⟩], ⟨"mesa", none, some 4⟩, none, "pix", some 0, 35, none, some 50⟩

theorem post_pedidos_atomic_witness :
    (postPedidos (fun n => n ≠ 3) 999 dbW payW).success = false
    ∧ (postPedidos (fun n => n ≠ 3) 999 dbW payW).db = dbW :=
  ⟨by decide, (post_pedidos_atomic (fun n => n ≠ 3) 999 dbW payW).2.1 (by decide)⟩

/-! ## Lemmas: connection discipline of the transactional handlers -/

/-- A trace of the shape every transactional handler produces: acquire,
BEGIN, the data statements, COMMIT or ROLLBACK, release. -/
theorem trace_shape (c : Nat) (fin : DbEvent)
    (h1 : fin ≠ .acquire) (h2 : fin ≠ .release) :
    (([DbEvent.acquire, .beginTx] ++ List.replicate c DbEvent.exec ++
        [fin, .release]).count DbEvent.acquire = 1)
    ∧ (([DbEvent.acquire, .beginTx] ++ List.replicate c DbEvent.exec ++
        [fin, .release]).count DbEvent.release = 1)
    ∧ ([DbEvent.acquire, .beginTx] ++ List.replicate c DbEvent.exec ++
        [fin, .release]).getLast? = some DbEvent.release := by
  refine ⟨?_, ?_, ?_⟩
  · simp [List.count_append, List.count_replicate, List.count_cons, Ne.symm h1]
  · simp [List.count_append, List.count_replicate, List.count_cons, Ne.symm h2]
  · rw [List.getLast?_append]
    simp

/-- C7: each transactional handler (order write, batch status update, catalog
bulk replace) acquires the pool connection exactly once and releases it
exactly once, as the final action, on every exit path (commit or rollback,
for every failure oracle and input). -/
theorem handlers_release_connection :
    (∀ (ok : Nat → Bool) (now : Nat) (db : DB) (p : OrderPayload),
      ((postPedidos ok now db p).events.count DbEvent.acquire = 1)
      ∧ ((postPedidos ok now db p).events.count DbEvent.release = 1)
      ∧ (postPedidos ok now db p).events.getLast? = some DbEvent.release)
    ∧ (∀ (ok : Nat → Bool) (db : DB) (body : List StatusUpdate),
      ((putPedidos ok db body).events.count DbEvent.acquire = 1)
      ∧ ((putPedidos ok db body).events.count DbEvent.release = 1)
      ∧ (putPedidos ok db body).events.getLast? = some DbEvent.release)
    ∧ (∀ (ok : Nat → Bool) (db : DB) (body : List (String × List ProdPayload)),
      ((putProdutos ok db body).events.count DbEvent.acquire = 1)
      ∧ ((putProdutos ok db body).events.count DbEvent.release = 1)
      ∧ (putProdutos ok db body).events.getLast? = some DbEvent.release) := by
  refine ⟨?_, ?_, ?_⟩
  · intro ok now db p
    unfold postPedidos
    rcases hr : (if ok 0 = true then
        runItems ok p.orderId p.items (insertPedido db (pedidoRowOfPayload p now)) 1
      else .error 1) with n | ⟨ydb, yc⟩
    · simpa using trace_shape n .rollbackTx (by simp) (by simp)
    · simpa using trace_shape yc .commitTx (by simp) (by simp)
  · intro ok db body
    unfold putPedidos
    rcases hr : runUpdates ok body db 0 with n | ⟨ydb, yc⟩
    · simpa using trace_shape n .rollbackTx (by simp) (by simp)
    · simpa using trace_shape yc .commitTx (by simp) (by simp)
  · intro ok db body
    unfold putProdutos
    rcases hr : (if ok 0 = true then runProds ok body [] 1 else .error 1)
      with n | ⟨yp, yc⟩
    · simpa using trace_shape n .rollbackTx (by simp) (by simp)
    · simpa using trace_shape yc .commitTx (by simp) (by simp)

/-! ## Lemmas: header idempotence (`ON CONFLICT DO NOTHING`) -/

theorem insComp_pedidos (db : DB) (iid : Nat) (c : CompPayload) :
    (insComp db iid c).pedidos = db.pedidos := rfl

theorem writeComps_pedidos (iid : Nat) :
    ∀ (cs : List CompPayload) (db : DB), (writeComps iid cs db).pedidos = db.pedidos
  | [], _ => rfl
  | c :: rest, db => by
      rw [writeComps, writeComps_pedidos iid rest]
      rfl

theorem writeItems_pedidos (oid : String) :
    ∀ (its : List ItemPayload) (db : DB), (writeItems oid its db).pedidos = db.pedidos
  | [], _ => rfl
  | it :: rest, db => by
      rw [writeItems, writeItems_pedidos oid rest, writeComps_pedidos]
      rfl

theorem insertPedido_of_mem {db : DB} {r : PedidoRow}
    (h : ∃ q ∈ db.pedidos, q.id_pedido = r.id_pedido) : insertPedido db r = db := by
  rw [insertPedido, if_pos h]

theorem insertPedido_mem_after (db : DB) (r : PedidoRow) :
    ∃ q ∈ (insertPedido db r).pedidos, q.id_pedido = r.id_pedido := by
  rw [insertPedido]
  by_cases h : ∃ q ∈ db.pedidos, q.id_pedido = r.id_pedido
  · rw [if_pos h]; exact h
  · rw [if_neg h]
    exact ⟨r, by simp⟩

theorem writePedido_pedidos (now : Nat) (db : DB) (p : OrderPayload) :
    (writePedido now db p).pedidos = (insertPedido db (pedidoRowOfPayload p now)).pedidos := by
  rw [writePedido, writeItems_pedidos]

theorem writePedido_mem_after (now : Nat) (db : DB) (p : OrderPayload) :
    ∃ q ∈ (writePedido now db p).pedidos, q.id_pedido = p.orderId := by
  rw [writePedido_pedidos]
  exact insertPedido_mem_after db (pedidoRowOfPayload p now)

theorem insertPedido_count (db : DB) (r : PedidoRow) :
    ((insertPedido db r).pedidos.map (·.id_pedido)).count r.id_pedido
      = max ((db.pedidos.map (·.id_pedido)).count r.id_pedido) 1 := by
  rw [insertPedido]
  by_cases h : ∃ q ∈ db.pedidos, q.id_pedido = r.id_pedido
  · rw [if_pos h]
    rcases h with ⟨q, hq, hid⟩
    have hmem : r.id_pedido ∈ db.pedidos.map (·.id_pedido) :=
      List.mem_map.mpr ⟨q, hq, hid⟩
    have := List.count_pos_iff.mpr hmem
    omega
  · rw [if_neg h]
    have hnmem : r.id_pedido ∉ db.pedidos.map (·.id_pedido) := by
      intro hmem
      rcases List.mem_map.mp hmem with ⟨q, hq, hid⟩
      exact h ⟨q, hq, hid⟩
    have h0 : (db.pedidos.map (·.id_pedido)).count r.id_pedido = 0 :=
      List.count_eq_zero.mpr hnmem
    simp [List.count_append, h0]

theorem insertPedido_nodup (db : DB) (r : PedidoRow)
    (h : (db.pedidos.map (·.id_pedido)).Nodup) :
    ((insertPedido db r).pedidos.map (·.id_pedido)).Nodup := by
  rw [insertPedido]
  by_cases hmem : ∃ q ∈ db.pedidos, q.id_pedido = r.id_pedido
  · rw [if_pos hmem]; exact h
  · rw [if_neg hmem]
    have hnmem : r.id_pedido ∉ db.pedidos.map (·.id_pedido) := by
      intro hm
      rcases List.mem_map.mp hm with ⟨q, hq, hid⟩
      exact hmem ⟨q, hq, hid⟩
    rw [List.map_append]
    refine List.Nodup.append h (by simp) ?_
    intro x hx hxl
    simp only [List.map_cons, List.map_nil, List.mem_singleton] at hxl
    exact hnmem (hxl ▸ hx)

/-- C3: a second submission with an already-stored `orderId` leaves the
`pedidos` table exactly as it was (no error, no overwrite, no second header
row); a single submission brings the per-id header count to `max old 1`; and
id-uniqueness of headers is preserved both by order writes and by status
updates. -/
theorem duplicate_order_id_ignored (db : DB) (p1 p2 : OrderPayload) (now1 now2 : Nat)
    (hid : p2.orderId = p1.orderId) :
    ((writePedido now2 (writePedido now1 db p1) p2).pedidos
        = (writePedido now1 db p1).pedidos)
    ∧ (((writePedido now1 db p1).pedidos.map (·.id_pedido)).count p1.orderId
        = max ((db.pedidos.map (·.id_pedido)).count p1.orderId) 1)
    ∧ ((db.pedidos.map (·.id_pedido)).Nodup →
        ((writePedido now1 db p1).pedidos.map (·.id_pedido)).Nodup)
    ∧ (∀ oid st, ((updateStatus db oid st).pedidos.map (·.id_pedido))
        = db.pedidos.map (·.id_pedido)) := by
  refine ⟨?_, ?_, ?_, ?_⟩
  · rw [writePedido_pedidos now2]
    have hmem : ∃ q ∈ (writePedido now1 db p1).pedidos,
        q.id_pedido = (pedidoRowOfPayload p2 now2).id_pedido := by
      have := writePedido_mem_after now1 db p1
      simpa [pedidoRowOfPayload, hid] using this
    rw [insertPedido_of_mem hmem]
  · rw [writePedido_pedidos]
    have := insertPedido_count db (pedidoRowOfPayload p1 now1)
    simpa [pedidoRowOfPayload] using this
  · intro h
    rw [writePedido_pedidos]
    exact insertPedido_nodup db _ h
  · intro oid st
    simp only [updateStatus, List.map_map]
    apply List.map_congr_left
    intro q _
    by_cases hq : q.id_pedido = oid <;> simp [hq]

theorem duplicate_order_id_ignored_witness :
    (writePedido 999 (writePedido 999 dbW payW) payW).pedidos
      = (writePedido 999 dbW payW).pedidos :=
  (duplicate_order_id_ignored dbW payW payW 999 999 rfl).1

/-! ## Lemmas: the batch status update -/

theorem numUpdates_cons (e : StatusUpdate) (rest : List StatusUpdate) :
    numUpdates (e :: rest) =
      (if entryValid e then 1 else 0) + numUpdates rest := by
  simp only [numUpdates, List.countP_cons]
  by_cases h : entryValid e
  · simp [h]; omega
  · simp [h]

theorem runUpdates_all_ok (ok : Nat → Bool) :
    ∀ (body : List StatusUpdate) (db : DB) (c : Nat),
    (∀ j, j < numUpdates body → ok (c + j) = true) →
    runUpdates ok body db c = .ok (applyUpdates body db, c + numUpdates body)
  | [], db, c, _ => by simp [runUpdates, applyUpdates, numUpdates]
  | e :: rest, db, c, h => by
      rw [numUpdates_cons] at h
      obtain ⟨eo, es⟩ := e
      match eo, es with
      | some oid, some st =>
        by_cases hv : oid ≠ "" ∧ st ≠ ""
        · have hval : entryValid ⟨some oid, some st⟩ := by
            simpa [entryValid] using hv
          rw [if_pos hval] at h
          have h0 : ok c = true := by simpa using h 0 (by omega)
          have hrest : ∀ j, j < numUpdates rest → ok (c + 1 + j) = true := by
            intro j hj
            have := h (j + 1) (by omega)
            rwa [show c + (j + 1) = c + 1 + j by omega] at this
          rw [runUpdates, applyUpdates, numUpdates_cons]
          simp only [if_pos hv, if_pos h0,
            runUpdates_all_ok ok rest (updateStatus db oid st) (c + 1) hrest,
            if_pos hval]
          exact congrArg _ (congrArg _ (by omega))
        · have hval : ¬ entryValid ⟨some oid, some st⟩ := by
            simpa [entryValid] using hv
          rw [if_neg hval] at h
          rw [runUpdates, applyUpdates, numUpdates_cons]
          simp only [if_neg hv, runUpdates_all_ok ok rest db c (by simpa using h),
            if_neg hval]
          exact congrArg _ (congrArg _ (by omega))
      | some oid, none =>
        have hval : ¬ entryValid ⟨some oid, none⟩ := by simp [entryValid]
        rw [if_neg hval] at h
        rw [runUpdates, applyUpdates, numUpdates_cons]
        simp only [runUpdates_all_ok ok rest db c (by simpa using h), if_neg hval]
        exact congrArg _ (congrArg _ (by omega))
      | none, es =>
        have hval : ¬ entryValid ⟨none, es⟩ := by simp [entryValid]
        rw [if_neg hval] at h
        rw [runUpdates, applyUpdates, numUpdates_cons]
        simp only [runUpdates_all_ok ok rest db c (by simpa using h), if_neg hval]
        exact congrArg _ (congrArg _ (by omega))

theorem runUpdates_ok_inv (ok : Nat → Bool) :
    ∀ (body : List StatusUpdate) (db : DB) (c : Nat) (x : DB × Nat),
    runUpdates ok body db c = .ok x →
    ∀ j, j < numUpdates body → ok (c + j) = true
  | [], _, _, _, _ => by intro j hj; simp [numUpdates] at hj
  | e :: rest, db, c, x, hx => by
      intro j hj
      rw [numUpdates_cons] at hj
      obtain ⟨eo, es⟩ := e
      match eo, es with
      | some oid, some st =>
        by_cases hv : oid ≠ "" ∧ st ≠ ""
        · have hval : entryValid ⟨some oid, some st⟩ := by
            simpa [entryValid] using hv
          rw [if_pos hval] at hj
          simp only [runUpdates] at hx
          rw [if_pos hv] at hx
          by_cases h0 : ok c = true
          · rw [if_pos h0] at hx
            match j with
            | 0 => simpa using h0
            | j + 1 =>
              have := runUpdates_ok_inv ok rest (updateStatus db oid st) (c + 1) x hx j
                (by omega)
              rwa [show c + 1 + j = c + (j + 1) by omega] at this
          · rw [if_neg h0] at hx; cases hx
        · have hval : ¬ entryValid ⟨some oid, some st⟩ := by
            simpa [entryValid] using hv
          rw [if_neg hval] at hj
          simp only [runUpdates] at hx
          rw [if_neg hv] at hx
          exact runUpdates_ok_inv ok rest db c x hx j (by omega)
      | some oid, none =>
        have hval : ¬ entryValid ⟨some oid, none⟩ := by simp [entryValid]
        rw [if_neg hval] at hj
        rw [runUpdates] at hx
        exact runUpdates_ok_inv ok rest db c x hx j (by omega)
      | none, es =>
        have hval : ¬ entryValid ⟨none, es⟩ := by simp [entryValid]
        rw [if_neg hval] at hj
        rw [runUpdates] at hx
        exact runUpdates_ok_inv ok rest db c x hx j (by omega)

theorem runUpdates_ok_val (ok : Nat → Bool) (body : List StatusUpdate)
    (db : DB) (c : Nat) (x : DB × Nat) (hx : runUpdates ok body db c = .ok x) :
    x = (applyUpdates body db, c + numUpdates body) := by
  have hall := runUpdates_ok_inv ok body db c x hx
  have := runUpdates_all_ok ok body db c hall
  rw [hx] at this
  cases this
  rfl

theorem applyUpdates_filter :
    ∀ (body : List StatusUpdate) (db : DB),
    applyUpdates body db =
      applyUpdates (body.filter (fun e => decide (entryValid e))) db
  | [], _ => rfl
  | e :: rest, db => by
      obtain ⟨eo, es⟩ := e
      match eo, es with
      | some oid, some st =>
        by_cases hv : oid ≠ "" ∧ st ≠ ""
        · have hval : entryValid ⟨some oid, some st⟩ := by
            simpa [entryValid] using hv
          simp only [applyUpdates]
          rw [if_pos hv, List.filter_cons_of_pos (by simpa using hval)]
          simp only [applyUpdates]
          rw [if_pos hv]
          exact applyUpdates_filter rest (updateStatus db oid st)
        · have hval : ¬ entryValid ⟨some oid, some st⟩ := by
            simpa [entryValid] using hv
          simp only [applyUpdates]
          rw [if_neg hv, List.filter_cons_of_neg (by simpa using hval)]
          exact applyUpdates_filter rest db
      | some oid, none =>
        rw [List.filter_cons_of_neg (by simp [entryValid])]
        simp only [applyUpdates]
        exact applyUpdates_filter rest db
      | none, es =>
        rw [List.filter_cons_of_neg (by simp [entryValid])]
        simp only [applyUpdates]
        exact applyUpdates_filter rest db

/-- C5 (amended): the batch commits exactly when every issued `UPDATE`
succeeds; on any update failure the whole batch is rolled back; on success
the result is the sequential application of the valid entries; and entries
skipped by the `orderId && status` guard have no effect on the outcome. -/
theorem put_pedidos_batch (ok : Nat → Bool) (db : DB) (body : List StatusUpdate) :
    ((putPedidos ok db body).success = true ↔ ∀ i, i < numUpdates body → ok i = true)
    ∧ ((putPedidos ok db body).success = false → (putPedidos ok db body).db = db)
    ∧ ((putPedidos ok db body).success = true →
        (putPedidos ok db body).db = applyUpdates body db)
    ∧ applyUpdates body db =
        applyUpdates (body.filter (fun e => decide (entryValid e))) db := by
  rcases hr : runUpdates ok body db 0 with n | ⟨ydb, yc⟩
  · have hres : putPedidos ok db body =
        ⟨db, false, [.acquire, .beginTx] ++ List.replicate n DbEvent.exec ++
          [.rollbackTx, .release]⟩ := by
      simp only [putPedidos, hr]
    have hnall : ¬ ∀ i, i < numUpdates body → ok i = true := by
      intro hall
      have : runUpdates ok body db 0 = .ok (applyUpdates body db, 0 + numUpdates body) :=
        runUpdates_all_ok ok body db 0 (fun j hj => by simpa using hall j hj)
      rw [hr] at this
      cases this
    rw [hres]
    exact ⟨by simpa using hnall, fun _ => rfl, by simp, applyUpdates_filter body db⟩
  · have hres : putPedidos ok db body =
        ⟨ydb, true, [.acquire, .beginTx] ++ List.replicate yc DbEvent.exec ++
          [.commitTx, .release]⟩ := by
      simp only [putPedidos, hr]
    have hval := runUpdates_ok_val ok body db 0 (ydb, yc) hr
    have hydb : ydb = applyUpdates body db := by
      have := congrArg Prod.fst hval
      simpa using this
    have hall : ∀ i, i < numUpdates body → ok i = true := by
      intro i hi
      simpa using runUpdates_ok_inv ok body db 0 (ydb, yc) hr i hi
    rw [hres]
    exact ⟨by simpa using hall, by simp, fun _ => hydb, applyUpdates_filter body db⟩

theorem put_pedidos_batch_witness :
    (putPedidos (fun _ => true) dbW
        [⟨some "o1", some "saiu"⟩, ⟨some "o1", none⟩]).success = true
    ∧ (putPedidos (fun _ => true) dbW
        [⟨some "o1", some "saiu"⟩, ⟨some "o1", none⟩]).db =
      applyUpdates [⟨some "o1", some "saiu"⟩, ⟨some "o1", none⟩] dbW :=
  ⟨by decide,
    (put_pedidos_batch (fun _ => true) dbW
      [⟨some "o1", some "saiu"⟩, ⟨some "o1", none⟩]).2.2.1 (by decide)⟩

/-- Concrete database for the status-update counterexample and no-op claims:
one stored order `"o1"` with status `"pendente"`. -/
def dbS : DB :=
  ⟨[], [⟨"o1", "Ana", none, "mesa", none, some 5, "", "pix", none, 30, "pendente", 100⟩],
    [], [], 1⟩

/-- C5 counterexample: the entry `{orderId: "o1", status: ""}` has both
fields present, yet the handler skips it (JavaScript `&&` treats `""` as
missing): the batch succeeds and the stored status stays `"pendente"`
instead of being updated to `""`. -/
theorem put_pedidos_empty_status_skipped :
    (putPedidos (fun _ => true) dbS [⟨some "o1", some ""⟩]).success = true
    ∧ (putPedidos (fun _ => true) dbS [⟨some "o1", some ""⟩]).db = dbS
    ∧ (putPedidos (fun _ => true) dbS
        [⟨some "o1", some ""⟩]).db.pedidos.map (·.status) = ["pendente"]
    ∧ "pendente" ≠ "" := by
  refine ⟨by decide, by decide, by decide, by decide⟩

/-- C10: a status update naming an `orderId` with no stored order is a silent
no-op: the `UPDATE` matches zero rows, no stored order changes, and the
batch still succeeds with the state unchanged. -/
theorem unknown_order_id_noop (db : DB) (oid st : String)
    (h : ∀ q ∈ db.pedidos, q.id_pedido ≠ oid) :
    updateStatus db oid st = db
    ∧ (putPedidos (fun _ => true) db [⟨some oid, some st⟩]).success = true
    ∧ (putPedidos (fun _ => true) db [⟨some oid, some st⟩]).db = db := by
  have h1 : updateStatus db oid st = db := by
    have : db.pedidos.map (fun q =>
        if q.id_pedido = oid then { q with status := st } else q) = db.pedidos := by
      rw [show db.pedidos.map (fun q =>
          if q.id_pedido = oid then { q with status := st } else q)
            = db.pedidos.map id from
        List.map_congr_left (fun q hq => by rw [if_neg (h q hq)]; rfl)]
      exact List.map_id db.pedidos
    rw [updateStatus, this]
  refine ⟨h1, ?_, ?_⟩
  · have : runUpdates (fun _ => true) [⟨some oid, some st⟩] db 0 =
        .ok (applyUpdates [⟨some oid, some st⟩] db,
          0 + numUpdates [⟨some oid, some st⟩]) :=
      runUpdates_all_ok _ _ db 0 (fun j _ => rfl)
    simp only [putPedidos, this]
  · have hrun : runUpdates (fun _ => true) [⟨some oid, some st⟩] db 0 =
        .ok (applyUpdates [⟨some oid, some st⟩] db,
          0 + numUpdates [⟨some oid, some st⟩]) :=
      runUpdates_all_ok _ _ db 0 (fun j _ => rfl)
    simp only [putPedidos, hrun]
    simp only [applyUpdates]
    by_cases hv : oid ≠ "" ∧ st ≠ ""
    · rw [if_pos hv, h1]
    · rw [if_neg hv]

theorem unknown_order_id_noop_witness :
    updateStatus dbS "zz" "saiu" = dbS
    ∧ (putPedidos (fun _ => true) dbS [⟨some "zz", some "saiu"⟩]).db = dbS := by
  have := unknown_order_id_noop dbS "zz" "saiu" (by decide)
  exact ⟨this.1, this.2.2⟩

/-! ## First-seen deduplication

Both the catalog grouping and the order reconstruction key their output on
the first occurrence of an identifier: `keyedFirst key l seen` keeps exactly
the elements of `l` whose key has not been seen before (initially `seen`). -/

/-- Keep the first element of each key, left to right. -/
def keyedFirst {α : Type u} {κ : Type v} [DecidableEq κ] (key : α → κ) :
    List α → List κ → List α
  | [], _ => []
  | a :: rest, seen =>
    if key a ∈ seen then keyedFirst key rest seen
    else a :: keyedFirst key rest (key a :: seen)

theorem keyedFirst_append_one {α : Type u} {κ : Type v} [DecidableEq κ] (key : α → κ) :
    ∀ (l : List α) (a : α) (seen : List κ),
    keyedFirst key (l ++ [a]) seen =
      keyedFirst key l seen ++
        (if key a ∈ seen ∨ key a ∈ l.map key then [] else [a])
  | [], a, seen => by
      by_cases h : key a ∈ seen
      · simp [keyedFirst, h]
      · simp [keyedFirst, h]
  | x :: l, a, seen => by
      by_cases hx : key x ∈ seen
      · rw [List.cons_append, keyedFirst, if_pos hx, keyedFirst, if_pos hx,
          keyedFirst_append_one key l a seen]
        by_cases ha : key a ∈ seen ∨ key a ∈ l.map key
        · rw [if_pos ha, if_pos (by
            rcases ha with h | h
            · exact Or.inl h
            · exact Or.inr (by simp [h]))]
        · rw [if_neg ha, if_neg (by
            intro hcon
            rcases hcon with h | h
            · exact ha (Or.inl h)
            · simp only [List.map_cons, List.mem_cons] at h
              rcases h with h | h
              · exact ha (Or.inl (h ▸ hx))
              · exact ha (Or.inr h))]
      · rw [List.cons_append, keyedFirst, if_neg hx, keyedFirst, if_neg hx,
          keyedFirst_append_one key l a (key x :: seen), List.cons_append]
        by_cases ha : key a ∈ key x :: seen ∨ key a ∈ l.map key
        · rw [if_pos ha, if_pos (by
            rcases ha with h | h
            · simp only [List.mem_cons] at h
              rcases h with h | h
              · exact Or.inr (by simp [h])
              · exact Or.inl h
            · exact Or.inr (by simp [h]))]
        · rw [if_neg ha, if_neg (by
            intro hcon
            rcases hcon with h | h
            · exact ha (Or.inl (by simp [h]))
            · simp only [List.map_cons, List.mem_cons] at h
              rcases h with h | h
              · exact ha (Or.inl (by simp [h]))
              · exact ha (Or.inr h))]

theorem keyedFirst_mem_key {α : Type u} {κ : Type v} [DecidableEq κ] (key : α → κ) :
    ∀ (l : List α) (seen : List κ) (k : κ),
    k ∈ (keyedFirst key l seen).map key ↔ k ∈ l.map key ∧ k ∉ seen
  | [], seen, k => by simp [keyedFirst]
  | a :: l, seen, k => by
      by_cases ha : key a ∈ seen
      · rw [keyedFirst, if_pos ha]
        rw [keyedFirst_mem_key key l seen k]
        simp only [List.map_cons, List.mem_cons]
        constructor
        · rintro ⟨h1, h2⟩
          exact ⟨Or.inr h1, h2⟩
        · rintro ⟨h1, h2⟩
          rcases h1 with h1 | h1
          · exact absurd (h1 ▸ ha) h2
          · exact ⟨h1, h2⟩
      · rw [keyedFirst, if_neg ha]
        simp only [List.map_cons, List.mem_cons]
        rw [keyedFirst_mem_key key l (key a :: seen) k]
        simp only [List.mem_cons]
        constructor
        · rintro (h | ⟨h1, h2⟩)
          · exact ⟨Or.inl h, h ▸ ha⟩
          · exact ⟨Or.inr h1, fun hc => h2 (Or.inr hc)⟩
        · rintro ⟨h1, h2⟩
          rcases h1 with h1 | h1
          · exact Or.inl h1
          · by_cases hk : k = key a
            · exact Or.inl hk
            · exact Or.inr ⟨h1, by
                intro hc
                rcases hc with hc | hc
                · exact hk hc
                · exact h2 hc⟩

theorem keyedFirst_not_seen {α : Type u} {κ : Type v} [DecidableEq κ] (key : α → κ) :
    ∀ (l : List α) (seen : List κ) (a : α),
    a ∈ keyedFirst key l seen → key a ∉ seen := by
  intro l seen a ha
  have : key a ∈ (keyedFirst key l seen).map key := List.mem_map_of_mem _ ha
  exact ((keyedFirst_mem_key key l seen (key a)).mp this).2

theorem keyedFirst_key_nodup {α : Type u} {κ : Type v} [DecidableEq κ] (key : α → κ) :
    ∀ (l : List α) (seen : List κ), ((keyedFirst key l seen).map key).Nodup
  | [], seen => by simp [keyedFirst]
  | a :: l, seen => by
      by_cases ha : key a ∈ seen
      · rw [keyedFirst, if_pos ha]
        exact keyedFirst_key_nodup key l seen
      · rw [keyedFirst, if_neg ha]
        simp only [List.map_cons, List.nodup_cons]
        refine ⟨?_, keyedFirst_key_nodup key l (key a :: seen)⟩
        intro hmem
        have := (keyedFirst_mem_key key l (key a :: seen) (key a)).mp hmem
        exact this.2 (by simp)

theorem keyedFirst_sublist {α : Type u} {κ : Type v} [DecidableEq κ] (key : α → κ) :
    ∀ (l : List α) (seen : List κ), (keyedFirst key l seen).Sublist l
  | [], _ => List.Sublist.refl []
  | a :: l, seen => by
      by_cases ha : key a ∈ seen
      · rw [keyedFirst, if_pos ha]
        exact (keyedFirst_sublist key l seen).cons a
      · rw [keyedFirst, if_neg ha]
        exact (keyedFirst_sublist key l (key a :: seen)).cons₂ a

theorem keyedFirst_mem {α : Type u} {κ : Type v} [DecidableEq κ] (key : α → κ)
    {l : List α} {seen : List κ} {a : α} (h : a ∈ keyedFirst key l seen) : a ∈ l :=
  (keyedFirst_sublist key l seen).mem h

/-! ## Lemmas: catalog grouping -/

theorem addProd_no_key :
    ∀ (acc : List (String × List Produto)) (pr : Produto),
    (∀ kv ∈ acc, kv.1 ≠ pr.categoria) →
    groupProducts.addProd acc pr = acc ++ [(pr.categoria, [pr])]
  | [], pr, _ => rfl
  | (k, ps) :: rest, pr, h => by
      rw [groupProducts.addProd, if_neg (h (k, ps) (by simp)),
        addProd_no_key rest pr (fun kv hkv => h kv (by simp [hkv]))]
      rfl

theorem addProd_decomp :
    ∀ (l1 : List (String × List Produto)) (ps : List Produto)
      (l2 : List (String × List Produto)) (pr : Produto),
    (∀ kv ∈ l1, kv.1 ≠ pr.categoria) →
    groupProducts.addProd (l1 ++ (pr.categoria, ps) :: l2) pr =
      l1 ++ (pr.categoria, ps ++ [pr]) :: l2
  | [], ps, l2, pr, _ => by
      rw [List.nil_append, groupProducts.addProd, if_pos rfl, List.nil_append]
  | (k, qs) :: l1, ps, l2, pr, h => by
      rw [List.cons_append, groupProducts.addProd, if_neg (h (k, qs) (by simp)),
        addProd_decomp l1 ps l2 pr (fun kv hkv => h kv (by simp [hkv])),
        List.cons_append]

/-- The mapping the grouping loop produces, described directly: category keys
in first-seen order, each mapped to the subsequence of its products. -/
def specGroup (rows : List Produto) : List (String × List Produto) :=
  (keyedFirst (fun q => q.categoria) rows []).map
    (fun fr => (fr.categoria, rows.filter (fun q => q.categoria = fr.categoria)))

theorem groupProducts_append_one (rows : List Produto) (r : Produto) :
    groupProducts (rows ++ [r]) = groupProducts.addProd (groupProducts rows) r := by
  simp only [groupProducts, List.foldl_append, List.foldl_cons, List.foldl_nil]

theorem specGroup_append_one (rows : List Produto) (r : Produto) :
    specGroup (rows ++ [r]) = groupProducts.addProd (specGroup rows) r := by
  by_cases hmem : r.categoria ∈ rows.map (fun q => q.categoria)
  · have hK : keyedFirst (fun q => q.categoria) (rows ++ [r]) [] =
        keyedFirst (fun q => q.categoria) rows [] := by
      rw [keyedFirst_append_one, if_pos (Or.inr hmem), List.append_nil]
    have hkmem : r.categoria ∈
        (keyedFirst (fun q => q.categoria) rows []).map (fun q => q.categoria) :=
      (keyedFirst_mem_key _ rows [] _).mpr ⟨hmem, by simp⟩
    rcases List.mem_map.mp hkmem with ⟨fr0, hfr0K, hfr0cat⟩
    rcases List.append_of_mem hfr0K with ⟨k1, k2, hsplit⟩
    have hnodup := keyedFirst_key_nodup (fun q => q.categoria) rows []
    rw [hsplit] at hnodup
    simp only [List.map_append, List.map_cons, List.nodup_append, List.nodup_cons,
      List.disjoint_cons_right] at hnodup
    have hk1 : ∀ x ∈ k1, x.categoria ≠ r.categoria := by
      intro x hx hcon
      refine hnodup.2.2.1 ?_
      rw [hfr0cat, ← hcon]
      exact List.mem_map_of_mem _ hx
    have hk2 : ∀ x ∈ k2, x.categoria ≠ r.categoria := by
      intro x hx hcon
      refine hnodup.2.1.1 ?_
      rw [hfr0cat, ← hcon]
      exact List.mem_map_of_mem _ hx
    have hfilter_ne : ∀ (k : String), k ≠ r.categoria →
        (rows ++ [r]).filter (fun q => q.categoria = k) =
          rows.filter (fun q => q.categoria = k) := by
      intro k hk
      rw [List.filter_append]
      simp only [List.filter_cons, List.filter_nil]
      rw [if_neg (by
        simp only [decide_eq_true_eq]
        intro hc
        exact hk hc.symm)]
      simp
    have hfilter_eq :
        (rows ++ [r]).filter (fun q => q.categoria = r.categoria) =
          rows.filter (fun q => q.categoria = r.categoria) ++ [r] := by
      rw [List.filter_append]
      simp only [List.filter_cons, List.filter_nil]
      rw [if_pos (by simp)]
    rw [specGroup, hK, hsplit, specGroup, hsplit]
    simp only [List.map_append, List.map_cons]
    rw [hfr0cat]
    rw [addProd_decomp _ _ _ _ (by
      intro kv hkv
      rcases List.mem_map.mp hkv with ⟨x, hx, hxkv⟩
      rw [← hxkv]
      exact hk1 x hx)]
    congr 1
    · apply List.map_congr_left
      intro x hx
      rw [hfilter_ne x.categoria (hk1 x hx)]
    · congr 1
      · rw [hfilter_eq]
      · apply List.map_congr_left
        intro x hx
        rw [hfilter_ne x.categoria (hk2 x hx)]
  · have hK : keyedFirst (fun q => q.categoria) (rows ++ [r]) [] =
        keyedFirst (fun q => q.categoria) rows [] ++ [r] := by
      rw [keyedFirst_append_one, if_neg (by
        intro hc
        rcases hc with hc | hc
        · simp at hc
        · exact hmem hc)]
    have hknotmem : ∀ x ∈ keyedFirst (fun q => q.categoria) rows [],
        x.categoria ≠ r.categoria := by
      intro x hx hcon
      have : x.categoria ∈ rows.map (fun q => q.categoria) :=
        List.mem_map_of_mem _ (keyedFirst_mem _ hx)
      exact hmem (hcon ▸ this)
    have hfilter_ne : ∀ (k : String), k ≠ r.categoria →
        (rows ++ [r]).filter (fun q => q.categoria = k) =
          rows.filter (fun q => q.categoria = k) := by
      intro k hk
      rw [List.filter_append]
      simp only [List.filter_cons, List.filter_nil]
      rw [if_neg (by
        simp only [decide_eq_true_eq]
        intro hc
        exact hk hc.symm)]
      simp
    have hfilter_new :
        (rows ++ [r]).filter (fun q => q.categoria = r.categoria) = [r] := by
      rw [List.filter_append]
      simp only [List.filter_cons, List.filter_nil]
      rw [if_pos (by simp)]
      have : rows.filter (fun q => q.categoria = r.categoria) = [] := by
        rw [List.filter_eq_nil_iff]
        intro q hq hcon
        exact hmem (by
          simp only [decide_eq_true_eq] at hcon
          exact hcon ▸ List.mem_map_of_mem _ hq)
      rw [this]
      rfl
    rw [specGroup, hK, specGroup]
    simp only [List.map_append, List.map_cons, List.map_nil]
    rw [addProd_no_key _ _ (by
      intro kv hkv
      rcases List.mem_map.mp hkv with ⟨x, hx, hxkv⟩
      rw [← hxkv]
      exact hknotmem x hx)]
    congr 1
    · apply List.map_congr_left
      intro x hx
      rw [hfilter_ne x.categoria (hknotmem x hx)]
    · rw [hfilter_new]

theorem groupProducts_eq_specGroup (rows : List Produto) :
    groupProducts rows = specGroup rows := by
  induction rows using List.reverseRecOn with
  | nil => rfl
  | append_singleton rows r ih =>
      rw [groupProducts_append_one, specGroup_append_one, ih]

/-- C6: the Catalog Reader's grouping maps category keys in first-seen order
to the ordered subsequence of their products; on the spec's example input
`[{id:1,categoria:"A"},{id:2,categoria:"B"},{id:3,categoria:"A"}]` the result
is `A ↦ [1, 3]`, `B ↦ [2]`. -/
theorem catalog_grouping :
    (∀ rows : List Produto, groupProducts rows =
      (keyedFirst (fun q => q.categoria) rows []).map
        (fun fr => (fr.categoria, rows.filter (fun q => q.categoria = fr.categoria))))
    ∧ (groupProducts
        [⟨1, "", none, 0, "A", none, 0⟩, ⟨2, "", none, 0, "B", none, 0⟩,
          ⟨3, "", none, 0, "A", none, 0⟩] =
      [("A", [⟨1, "", none, 0, "A", none, 0⟩, ⟨3, "", none, 0, "A", none, 0⟩]),
       ("B", [⟨2, "", none, 0, "B", none, 0⟩])]) :=
  ⟨groupProducts_eq_specGroup, by decide⟩

/-! ## Lemmas: the order reconstruction

`reconstruct` is characterised row-list by row-list against a direct
"first-seen" description: orders keyed on first sight of `id_pedido`, items
on first sight of a truthy `id_item_pedido` within the order, add-ons on
first sight of a truthy `id_complemento_disponivel` within the item. -/

/-- The rows of one order in a flattened row list. -/
def orderRows (rows : List JoinRow) (oid : String) : List JoinRow :=
  rows.filter (fun r => r.id_pedido = oid)

/-- The rows of one order carrying a truthy add-on id for line item `iid`. -/
def compRows (orows : List JoinRow) (iid : Option Nat) : List JoinRow :=
  (orows.filter (fun r => r.id_item_pedido = iid)).filter
    (fun r => decide (truthyN r.id_complemento_disponivel))

/-- First-seen description of one item's `complements` array. -/
def specComps (orows : List JoinRow) (iid : Option Nat) : List OutComp :=
  (keyedFirst (fun r => r.id_complemento_disponivel) (compRows orows iid) []).map mkComp

/-- The first row of each distinct truthy line-item id of one order. -/
def itemFirstRows (orows : List JoinRow) : List JoinRow :=
  keyedFirst (fun r => r.id_item_pedido)
    (orows.filter (fun r => decide (truthyN r.id_item_pedido))) []

/-- First-seen description of one order's `items` array. -/
def specItems (orows : List JoinRow) : List OutItem :=
  (itemFirstRows orows).map
    (fun fr => { mkItem fr with complements := specComps orows fr.id_item_pedido })

/-- First-seen description of one order of the response. -/
def specOrder (rows : List JoinRow) (fr : JoinRow) : OutOrder :=
  { mkOrder fr with items := specItems (orderRows rows fr.id_pedido) }

/-- First-seen description of the whole response. -/
def specOrders (rows : List JoinRow) : List OutOrder :=
  (keyedFirst (fun r => r.id_pedido) rows []).map (specOrder rows)

theorem specOrder_orderId (rows : List JoinRow) (fr : JoinRow) :
    (specOrder rows fr).orderId = fr.id_pedido := rfl

theorem pushComp_no_match (row : JoinRow) :
    ∀ (l : List OutItem), (∀ it ∈ l, it.id_item_pedido ≠ row.id_item_pedido) →
    pushComp row l = l
  | [], _ => rfl
  | it :: rest, h => by
      rw [pushComp, if_neg (h it (by simp)),
        pushComp_no_match row rest (fun x hx => h x (by simp [hx]))]

theorem pushComp_decomp (row : JoinRow) :
    ∀ (l1 : List OutItem) (it0 : OutItem) (l2 : List OutItem),
    (∀ it ∈ l1, it.id_item_pedido ≠ row.id_item_pedido) →
    it0.id_item_pedido = row.id_item_pedido →
    pushComp row (l1 ++ it0 :: l2) =
      l1 ++ (if truthyN row.id_complemento_disponivel ∧
          ¬ ∃ c ∈ it0.complements, c.id = row.id_complemento_disponivel
        then { it0 with complements := it0.complements ++ [mkComp row] }
        else it0) :: l2
  | [], it0, l2, _, h0 => by
      rw [List.nil_append, pushComp, if_pos h0, List.nil_append]
  | it :: l1, it0, l2, h, h0 => by
      rw [List.cons_append, pushComp, if_neg (h it (by simp)),
        pushComp_decomp row l1 it0 l2 (fun x hx => h x (by simp [hx])) h0,
        List.cons_append]

theorem updateFirstOrder_decomp (oid : String) (f : OutOrder → OutOrder) :
    ∀ (l1 : List OutOrder) (o0 : OutOrder) (l2 : List OutOrder),
    (∀ o ∈ l1, o.orderId ≠ oid) → o0.orderId = oid →
    updateFirstOrder oid f (l1 ++ o0 :: l2) = l1 ++ f o0 :: l2
  | [], o0, l2, _, h0 => by
      rw [List.nil_append, updateFirstOrder, if_pos h0, List.nil_append]
  | o :: l1, o0, l2, h, h0 => by
      rw [List.cons_append, updateFirstOrder, if_neg (h o (by simp)),
        updateFirstOrder_decomp oid f l1 o0 l2 (fun x hx => h x (by simp [hx])) h0,
        List.cons_append]

theorem compRows_append_ne (orows : List JoinRow) (r : JoinRow) (iid : Option Nat)
    (h : r.id_item_pedido ≠ iid) :
    compRows (orows ++ [r]) iid = compRows orows iid := by
  rw [compRows, compRows]
  have h1 : (orows ++ [r]).filter (fun x => x.id_item_pedido = iid)
      = orows.filter (fun x => x.id_item_pedido = iid) := by
    rw [List.filter_append]
    have : [r].filter (fun x => x.id_item_pedido = iid) = [] := by
      simp [h]
    rw [this, List.append_nil]
  rw [h1]

theorem compRows_append_self (orows : List JoinRow) (r : JoinRow) :
    compRows (orows ++ [r]) r.id_item_pedido =
      compRows orows r.id_item_pedido ++
        (if truthyN r.id_complemento_disponivel then [r] else []) := by
  rw [compRows, compRows]
  have h1 : (orows ++ [r]).filter (fun x => x.id_item_pedido = r.id_item_pedido)
      = orows.filter (fun x => x.id_item_pedido = r.id_item_pedido) ++ [r] := by
    rw [List.filter_append]
    have : [r].filter (fun x => x.id_item_pedido = r.id_item_pedido) = [r] := by
      simp
    rw [this]
  rw [h1, List.filter_append]
  by_cases ht : truthyN r.id_complemento_disponivel
  · have : [r].filter (fun x => decide (truthyN x.id_complemento_disponivel)) = [r] := by
      simp [ht]
    rw [this, if_pos ht]
  · have : [r].filter (fun x => decide (truthyN x.id_complemento_disponivel)) = [] := by
      simp [ht]
    rw [this, if_neg ht]

theorem specComps_irrelevant (orows : List JoinRow) (r : JoinRow) (iid : Option Nat)
    (h : r.id_item_pedido ≠ iid) :
    specComps (orows ++ [r]) iid = specComps orows iid := by
  rw [specComps, specComps, compRows_append_ne orows r iid h]

/-- Membership among an item's collected add-on ids. -/
theorem specComps_mem_id (orows : List JoinRow) (iid : Option Nat) (k : Option Nat) :
    (∃ c ∈ specComps orows iid, c.id = k) ↔
      k ∈ (compRows orows iid).map (fun r => r.id_complemento_disponivel) := by
  rw [specComps]
  constructor
  · rintro ⟨c, hc, hck⟩
    rcases List.mem_map.mp hc with ⟨fr, hfr, hfrc⟩
    have : fr.id_complemento_disponivel = k := by
      rw [← hck, ← hfrc]
      rfl
    rw [← this]
    exact ((keyedFirst_mem_key _ _ _ _).mp (List.mem_map_of_mem _ hfr)).1
  · intro hk
    have := (keyedFirst_mem_key (fun r => r.id_complemento_disponivel)
      (compRows orows iid) [] k).mpr ⟨hk, by simp⟩
    rcases List.mem_map.mp this with ⟨fr, hfr, hfrk⟩
    exact ⟨mkComp fr, List.mem_map_of_mem _ hfr, hfrk⟩

theorem specComps_append_self (orows : List JoinRow) (r : JoinRow) :
    specComps (orows ++ [r]) r.id_item_pedido =
      if truthyN r.id_complemento_disponivel ∧
          ¬ ∃ c ∈ specComps orows r.id_item_pedido,
            c.id = r.id_complemento_disponivel
      then specComps orows r.id_item_pedido ++ [mkComp r]
      else specComps orows r.id_item_pedido := by
  rw [specComps, compRows_append_self]
  by_cases ht : truthyN r.id_complemento_disponivel
  · rw [if_pos ht, keyedFirst_append_one]
    by_cases hseen : r.id_complemento_disponivel ∈
        (compRows orows r.id_item_pedido).map (fun x => x.id_complemento_disponivel)
    · rw [if_pos (Or.inr hseen), if_neg (by
        rintro ⟨-, hnex⟩
        exact hnex ((specComps_mem_id orows r.id_item_pedido
          r.id_complemento_disponivel).mpr hseen))]
      rw [specComps, List.append_nil]
    · rw [if_neg (by
        intro hc
        rcases hc with hc | hc
        · simp at hc
        · exact hseen hc)]
      rw [if_pos ⟨ht, by
        intro hex
        exact hseen ((specComps_mem_id orows r.id_item_pedido
          r.id_complemento_disponivel).mp hex)⟩]
      rw [specComps, List.map_append, List.map_cons, List.map_nil]
  · rw [if_neg ht, List.append_nil, if_neg (by
      intro hc
      exact ht hc.1)]
    rw [specComps]

theorem specItems_id (orows : List JoinRow) (fr : JoinRow) :
    ((fun fr => { mkItem fr with
        complements := specComps orows fr.id_item_pedido }) fr).id_item_pedido
      = fr.id_item_pedido := rfl

/-- Membership among an order's collected line-item ids. -/
theorem specItems_mem_id (orows : List JoinRow) (k : Option Nat) :
    (∃ it ∈ specItems orows, it.id_item_pedido = k) ↔
      k ∈ (orows.filter (fun x => decide (truthyN x.id_item_pedido))).map
        (fun x => x.id_item_pedido) := by
  rw [specItems]
  constructor
  · rintro ⟨it, hit, hitk⟩
    rcases List.mem_map.mp hit with ⟨fr, hfr, hfrit⟩
    have : fr.id_item_pedido = k := by
      rw [← hitk, ← hfrit]
      rfl
    rw [← this]
    exact ((keyedFirst_mem_key _ _ _ _).mp (List.mem_map_of_mem _ hfr)).1
  · intro hk
    have := (keyedFirst_mem_key (fun r => r.id_item_pedido)
        (orows.filter (fun x => decide (truthyN x.id_item_pedido))) [] k).mpr
      ⟨hk, by simp⟩
    rcases List.mem_map.mp this with ⟨fr, hfr, hfrk⟩
    exact ⟨_, List.mem_map_of_mem
      (fun fr => { mkItem fr with complements := specComps orows fr.id_item_pedido }) hfr,
      hfrk⟩

theorem itemFirstRows_truthy (orows : List JoinRow) {fr : JoinRow}
    (h : fr ∈ itemFirstRows orows) : truthyN fr.id_item_pedido := by
  have := keyedFirst_mem _ h
  simpa using (List.mem_filter.mp this).2

/-- One row extends one order's `items` array exactly as the loop body does:
a new item object on first sight of a truthy line-item id, then the add-on
attached to the (unique) item the row addresses. -/
theorem specItems_append_one (orows : List JoinRow) (r : JoinRow) :
    specItems (orows ++ [r]) =
      pushComp r
        (if truthyN r.id_item_pedido ∧
            ¬ ∃ it ∈ specItems orows, it.id_item_pedido = r.id_item_pedido
          then specItems orows ++ [mkItem r]
          else specItems orows) := by
  by_cases ht : truthyN r.id_item_pedido
  · have hfilt : (orows ++ [r]).filter (fun x => decide (truthyN x.id_item_pedido))
        = orows.filter (fun x => decide (truthyN x.id_item_pedido)) ++ [r] := by
      rw [List.filter_append]
      have : [r].filter (fun x => decide (truthyN x.id_item_pedido)) = [r] := by
        simp [ht]
      rw [this]
    by_cases hseen : r.id_item_pedido ∈
        (orows.filter (fun x => decide (truthyN x.id_item_pedido))).map
          (fun x => x.id_item_pedido)
    · have hK : itemFirstRows (orows ++ [r]) = itemFirstRows orows := by
        rw [itemFirstRows, itemFirstRows, hfilt, keyedFirst_append_one,
          if_pos (Or.inr hseen), List.append_nil]
      have hex : ∃ it ∈ specItems orows, it.id_item_pedido = r.id_item_pedido :=
        (specItems_mem_id orows r.id_item_pedido).mpr hseen
      rw [if_neg (by
        rintro ⟨-, hnex⟩
        exact hnex hex)]
      have hkmem : r.id_item_pedido ∈
          (itemFirstRows orows).map (fun x => x.id_item_pedido) :=
        (keyedFirst_mem_key _ _ _ _).mpr ⟨hseen, by simp⟩
      rcases List.mem_map.mp hkmem with ⟨fr0, hfr0K, hfr0id⟩
      rcases List.append_of_mem hfr0K with ⟨k1, k2, hsplit⟩
      have hnodup := keyedFirst_key_nodup (fun r => r.id_item_pedido)
        (orows.filter (fun x => decide (truthyN x.id_item_pedido))) []
      rw [show keyedFirst (fun r => r.id_item_pedido)
          (orows.filter (fun x => decide (truthyN x.id_item_pedido))) []
          = itemFirstRows orows from rfl, hsplit] at hnodup
      simp only [List.map_append, List.map_cons, List.nodup_append, List.nodup_cons,
        List.disjoint_cons_right] at hnodup
      have hk1 : ∀ x ∈ k1, x.id_item_pedido ≠ r.id_item_pedido := by
        intro x hx hcon
        refine hnodup.2.2.1 ?_
        rw [hfr0id, ← hcon]
        exact List.mem_map_of_mem _ hx
      have hk2 : ∀ x ∈ k2, x.id_item_pedido ≠ r.id_item_pedido := by
        intro x hx hcon
        refine hnodup.2.1.1 ?_
        rw [hfr0id, ← hcon]
        exact List.mem_map_of_mem _ hx
      rw [specItems, hK, hsplit, specItems, hsplit]
      simp only [List.map_append, List.map_cons]
      rw [pushComp_decomp r _ _ _ (by
          intro it hit
          rcases List.mem_map.mp hit with ⟨x, hx, hxit⟩
          rw [← hxit]
          exact hk1 x hx)
        (by rw [← hfr0id]; rfl)]
      congr 1
      · apply List.map_congr_left
        intro x hx
        rw [specComps_irrelevant orows r x.id_item_pedido (by
          intro hcon
          exact hk1 x hx hcon.symm)]
      · congr 1
        · rw [show specComps (orows ++ [r]) fr0.id_item_pedido
              = specComps (orows ++ [r]) r.id_item_pedido by rw [hfr0id],
            specComps_append_self, hfr0id]
          by_cases hcond : truthyN r.id_complemento_disponivel ∧
              ¬ ∃ c ∈ specComps orows r.id_item_pedido,
                c.id = r.id_complemento_disponivel
          · rw [if_pos hcond, if_pos hcond]
          · rw [if_neg hcond, if_neg hcond]
        · apply List.map_congr_left
          intro x hx
          rw [specComps_irrelevant orows r x.id_item_pedido (by
            intro hcon
            exact hk2 x hx hcon.symm)]
    · have hK : itemFirstRows (orows ++ [r]) = itemFirstRows orows ++ [r] := by
        rw [itemFirstRows, itemFirstRows, hfilt, keyedFirst_append_one,
          if_neg (by
            intro hc
            rcases hc with hc | hc
            · simp at hc
            · exact hseen hc)]
      have hnex : ¬ ∃ it ∈ specItems orows, it.id_item_pedido = r.id_item_pedido := by
        intro hex
        exact hseen ((specItems_mem_id orows r.id_item_pedido).mp hex)
      rw [if_pos ⟨ht, hnex⟩]
      have hKne : ∀ x ∈ itemFirstRows orows, x.id_item_pedido ≠ r.id_item_pedido := by
        intro x hx hcon
        refine hseen ?_
        rw [← hcon]
        exact ((keyedFirst_mem_key _ _ _ _).mp (List.mem_map_of_mem _ hx)).1
      have hcompsnil : specComps orows r.id_item_pedido = [] := by
        rw [specComps]
        have : compRows orows r.id_item_pedido = [] := by
          rw [compRows]
          have : orows.filter (fun x => x.id_item_pedido = r.id_item_pedido) = [] := by
            rw [List.filter_eq_nil_iff]
            intro x hx hcon
            simp only [decide_eq_true_eq] at hcon
            refine hseen ?_
            rw [← hcon]
            refine List.mem_map_of_mem _ ?_
            rw [List.mem_filter]
            exact ⟨hx, by simpa using hcon ▸ ht⟩
          rw [this]
          rfl
        rw [this]
        rfl
      rw [specItems, hK, specItems]
      simp only [List.map_append, List.map_cons, List.map_nil]
      rw [pushComp_decomp r _ (mkItem r) [] (by
          intro it hit
          rcases List.mem_map.mp hit with ⟨x, hx, hxit⟩
          rw [← hxit]
          exact hKne x hx)
        rfl]
      congr 1
      · apply List.map_congr_left
        intro x hx
        rw [specComps_irrelevant orows r x.id_item_pedido (by
          intro hcon
          exact hKne x hx hcon.symm)]
      · rw [specComps_append_self, hcompsnil]
        by_cases hcond : truthyN r.id_complemento_disponivel
        · rw [if_pos ⟨hcond, by simp⟩, if_pos ⟨hcond, by simp [mkItem]⟩]
          rfl
        · rw [if_neg (by
            intro hc
            exact hcond hc.1),
            if_neg (by
            intro hc
            exact hcond hc.1)]
          rfl
  · have hfilt : (orows ++ [r]).filter (fun x => decide (truthyN x.id_item_pedido))
        = orows.filter (fun x => decide (truthyN x.id_item_pedido)) := by
      rw [List.filter_append]
      have : [r].filter (fun x => decide (truthyN x.id_item_pedido)) = [] := by
        simp [ht]
      rw [this, List.append_nil]
    have hK : itemFirstRows (orows ++ [r]) = itemFirstRows orows := by
      rw [itemFirstRows, itemFirstRows, hfilt]
    rw [if_neg (by
      intro hc
      exact ht hc.1)]
    have hKne : ∀ x ∈ itemFirstRows orows, x.id_item_pedido ≠ r.id_item_pedido := by
      intro x hx hcon
      exact ht (hcon ▸ itemFirstRows_truthy orows hx)
    rw [specItems, hK, specItems,
      pushComp_no_match r _ (by
        intro it hit
        rcases List.mem_map.mp hit with ⟨x, hx, hxit⟩
        rw [← hxit]
        exact hKne x hx)]
    apply List.map_congr_left
    intro x hx
    rw [specComps_irrelevant orows r x.id_item_pedido (by
      intro hcon
      exact hKne x hx hcon.symm)]

theorem orderRows_append_ne (rows : List JoinRow) (r : JoinRow) (oid : String)
    (h : r.id_pedido ≠ oid) :
    orderRows (rows ++ [r]) oid = orderRows rows oid := by
  rw [orderRows, orderRows, List.filter_append]
  have : [r].filter (fun x => x.id_pedido = oid) = [] := by
    simp [h]
  rw [this, List.append_nil]

theorem orderRows_append_self (rows : List JoinRow) (r : JoinRow) :
    orderRows (rows ++ [r]) r.id_pedido = orderRows rows r.id_pedido ++ [r] := by
  rw [orderRows, orderRows, List.filter_append]
  have : [r].filter (fun x => x.id_pedido = r.id_pedido) = [r] := by
    simp
  rw [this]

theorem specOrder_irrelevant (rows : List JoinRow) (r fr : JoinRow)
    (h : fr.id_pedido ≠ r.id_pedido) :
    specOrder (rows ++ [r]) fr = specOrder rows fr := by
  rw [specOrder, specOrder, orderRows_append_ne rows r fr.id_pedido (fun hc => h hc.symm)]

theorem addRow_def (acc : List OutOrder) (row : JoinRow) :
    addRow acc row =
      updateFirstOrder row.id_pedido (updOrder row)
        (if ∃ o ∈ acc, o.orderId = row.id_pedido then acc
         else acc ++ [mkOrder row]) := rfl

/-- One row extends the whole accumulated response as the loop body does. -/
theorem specOrders_append_one (rows : List JoinRow) (r : JoinRow) :
    specOrders (rows ++ [r]) = addRow (specOrders rows) r := by
  by_cases hmem : r.id_pedido ∈ rows.map (fun x => x.id_pedido)
  · have hK : keyedFirst (fun x => x.id_pedido) (rows ++ [r]) []
        = keyedFirst (fun x => x.id_pedido) rows [] := by
      rw [keyedFirst_append_one, if_pos (Or.inr hmem), List.append_nil]
    have hkmem : r.id_pedido ∈
        (keyedFirst (fun x => x.id_pedido) rows []).map (fun x => x.id_pedido) :=
      (keyedFirst_mem_key _ _ _ _).mpr ⟨hmem, by simp⟩
    rcases List.mem_map.mp hkmem with ⟨fr0, hfr0K, hfr0id⟩
    rcases List.append_of_mem hfr0K with ⟨k1, k2, hsplit⟩
    have hnodup := keyedFirst_key_nodup (fun x => x.id_pedido) rows []
    rw [hsplit] at hnodup
    simp only [List.map_append, List.map_cons, List.nodup_append, List.nodup_cons,
      List.disjoint_cons_right] at hnodup
    have hk1 : ∀ x ∈ k1, x.id_pedido ≠ r.id_pedido := by
      intro x hx hcon
      refine hnodup.2.2.1 ?_
      rw [hfr0id, ← hcon]
      exact List.mem_map_of_mem _ hx
    have hk2 : ∀ x ∈ k2, x.id_pedido ≠ r.id_pedido := by
      intro x hx hcon
      refine hnodup.2.1.1 ?_
      rw [hfr0id, ← hcon]
      exact List.mem_map_of_mem _ hx
    have hexist : ∃ o ∈ specOrders rows, o.orderId = r.id_pedido := by
      refine ⟨specOrder rows fr0, ?_, by rw [specOrder_orderId, hfr0id]⟩
      rw [specOrders]
      exact List.mem_map_of_mem _ hfr0K
    rw [addRow_def, if_pos hexist, specOrders, hK, hsplit, specOrders, hsplit]
    simp only [List.map_append, List.map_cons]
    rw [updateFirstOrder_decomp r.id_pedido (updOrder r) _ _ _ (by
        intro o ho
        rcases List.mem_map.mp ho with ⟨x, hx, hxo⟩
        rw [← hxo, specOrder_orderId]
        exact hk1 x hx)
      (by rw [specOrder_orderId, hfr0id])]
    have hmid : specOrder (rows ++ [r]) fr0 = updOrder r (specOrder rows fr0) := by
      have h1 : specOrder (rows ++ [r]) fr0 =
          { mkOrder fr0 with
              items := specItems (orderRows (rows ++ [r]) fr0.id_pedido) } := rfl
      have h2 : updOrder r (specOrder rows fr0) =
          { mkOrder fr0 with
              items := pushComp r
                (if truthyN r.id_item_pedido ∧
                    ¬ ∃ it ∈ specItems (orderRows rows fr0.id_pedido),
                      it.id_item_pedido = r.id_item_pedido
                  then specItems (orderRows rows fr0.id_pedido) ++ [mkItem r]
                  else specItems (orderRows rows fr0.id_pedido)) } := rfl
      rw [h1, h2, hfr0id, orderRows_append_self, specItems_append_one]
    rw [hmid]
    congr 1
    · apply List.map_congr_left
      intro x hx
      exact specOrder_irrelevant rows r x (hk1 x hx)
    · congr 1
      apply List.map_congr_left
      intro x hx
      exact specOrder_irrelevant rows r x (hk2 x hx)
  · have hK : keyedFirst (fun x => x.id_pedido) (rows ++ [r]) []
        = keyedFirst (fun x => x.id_pedido) rows [] ++ [r] := by
      rw [keyedFirst_append_one, if_neg (by
        intro hc
        rcases hc with hc | hc
        · simp at hc
        · exact hmem hc)]
    have hnotex : ¬ ∃ o ∈ specOrders rows, o.orderId = r.id_pedido := by
      rintro ⟨o, ho, hoid⟩
      rw [specOrders] at ho
      rcases List.mem_map.mp ho with ⟨fr, hfr, hfro⟩
      refine hmem ?_
      rw [← hoid, ← hfro, specOrder_orderId]
      exact ((keyedFirst_mem_key _ _ _ _).mp (List.mem_map_of_mem _ hfr)).1
    have hKne : ∀ x ∈ keyedFirst (fun x => x.id_pedido) rows [],
        x.id_pedido ≠ r.id_pedido := by
      intro x hx hcon
      refine hmem ?_
      rw [← hcon]
      exact ((keyedFirst_mem_key _ _ _ _).mp (List.mem_map_of_mem _ hx)).1
    have hnil : orderRows rows r.id_pedido = [] := by
      rw [orderRows, List.filter_eq_nil_iff]
      intro x hx hcon
      simp only [decide_eq_true_eq] at hcon
      exact hmem (hcon ▸ List.mem_map_of_mem _ hx)
    rw [addRow_def, if_neg hnotex, specOrders, hK, specOrders]
    simp only [List.map_append, List.map_cons, List.map_nil]
    rw [updateFirstOrder_decomp r.id_pedido (updOrder r) _ (mkOrder r) [] (by
        intro o ho
        rcases List.mem_map.mp ho with ⟨x, hx, hxo⟩
        rw [← hxo, specOrder_orderId]
        exact hKne x hx)
      rfl]
    congr 1
    · apply List.map_congr_left
      intro x hx
      exact specOrder_irrelevant rows r x (hKne x hx)
    · have h1 : specOrder (rows ++ [r]) r =
          { mkOrder r with
              items := specItems (orderRows (rows ++ [r]) r.id_pedido) } := rfl
      have h2 : updOrder r (mkOrder r) =
          { mkOrder r with
              items := pushComp r
                (if truthyN r.id_item_pedido ∧
                    ¬ ∃ it ∈ specItems ([] : List JoinRow),
                      it.id_item_pedido = r.id_item_pedido
                  then specItems ([] : List JoinRow) ++ [mkItem r]
                  else specItems ([] : List JoinRow)) } := rfl
      rw [h1, h2, orderRows_append_self, hnil, List.nil_append,
        show ([r] : List JoinRow) = [] ++ [r] from rfl, specItems_append_one]

theorem reconstruct_append_one (rows : List JoinRow) (r : JoinRow) :
    reconstruct (rows ++ [r]) = addRow (reconstruct rows) r := by
  simp only [reconstruct, List.foldl_append, List.foldl_cons, List.foldl_nil]

/-- The `ordersMap` reconstruction equals its first-seen description. -/
theorem reconstruct_eq_specOrders (rows : List JoinRow) :
    reconstruct rows = specOrders rows := by
  induction rows using List.reverseRecOn with
  | nil => rfl
  | append_singleton rows r ih =>
      rw [reconstruct_append_one, ih, specOrders_append_one]

theorem length_filter_le_one_of_nodup_map {α : Type u} {κ : Type v} [DecidableEq κ]
    (key : α → κ) :
    ∀ (l : List α), ((l.map key).Nodup) → ∀ (k : κ),
    (l.filter (fun a => decide (key a = k))).length ≤ 1
  | [], _, _ => by simp
  | a :: l, h, k => by
      simp only [List.map_cons, List.nodup_cons] at h
      by_cases hk : key a = k
      · rw [List.filter_cons_of_pos (by simpa using hk)]
        have : l.filter (fun a => decide (key a = k)) = [] := by
          rw [List.filter_eq_nil_iff]
          intro x hx hcon
          simp only [decide_eq_true_eq] at hcon
          exact h.1 (by
            rw [hk, ← hcon]
            exact List.mem_map_of_mem _ hx)
        rw [this]
        simp
      · rw [List.filter_cons_of_neg (by simpa using hk)]
        exact length_filter_le_one_of_nodup_map key l h.2 k

/-- C9: the reader deduplicates add-ons per item by add-on id, not by stored
row: in every returned order, every item's `complements` carry pairwise
distinct ids, so an id never appears twice no matter how many stored rows
share it. -/
theorem reader_comps_dedup_by_id (db : DB) :
    ∀ o ∈ getPedidos db, ∀ it ∈ o.items,
      (it.complements.map (fun c => c.id)).Nodup
      ∧ ∀ k : Option Nat,
        (it.complements.filter (fun c => decide (c.id = k))).length ≤ 1 := by
  intro o ho it hit
  rw [getPedidos, reconstruct_eq_specOrders, specOrders] at ho
  rcases List.mem_map.mp ho with ⟨fr, hfr, hfro⟩
  rw [← hfro] at hit
  rw [show (specOrder (sortedRows db) fr).items
      = specItems (orderRows (sortedRows db) fr.id_pedido) from rfl, specItems] at hit
  rcases List.mem_map.mp hit with ⟨fr', hfr', hfr'it⟩
  have hcomps : it.complements =
      specComps (orderRows (sortedRows db) fr.id_pedido) fr'.id_item_pedido := by
    rw [← hfr'it]
  have hnodup : (it.complements.map (fun c => c.id)).Nodup := by
    rw [hcomps, specComps, List.map_map]
    have : ((fun c => c.id) ∘ mkComp) = fun r : JoinRow => r.id_complemento_disponivel :=
      rfl
    rw [this]
    exact keyedFirst_key_nodup _ _ _
  exact ⟨hnodup, fun k =>
    length_filter_le_one_of_nodup_map (fun c => c.id) it.complements hnodup k⟩

/-- Database with one line item carrying two stored add-on rows with the same
`id_complemento_disponivel`. -/
def dbC9 : DB :=
  ⟨[], [⟨"o1", "Ana", none, "mesa", none, some 5, "", "pix", none, 30, "pendente", 100⟩],
    [⟨1, "o1", 7, "X", 2, 10, 15, 30⟩],
    [⟨1, 3, "cheese", 5⟩, ⟨1, 3, "cheese2", 6⟩], 2⟩

/-- The single order dbC9's reader returns. -/
def outC9 : OutOrder :=
  ⟨"o1", "Ana", none, "mesa", none, some 5, "", "pix", none, 30, "pendente", 100,
    [⟨some 1, some 7, some "X", some 2, some 10, some 15, some 30,
      [⟨some 3, some "cheese", some 5⟩]⟩]⟩

theorem reader_comps_dedup_by_id_witness :
    outC9 ∈ getPedidos dbC9
    ∧ (outC9.items.head?.isSome = true)
    ∧ ∀ it ∈ outC9.items, (it.complements.map (fun c => c.id)).Nodup := by
  refine ⟨by decide, by decide, ?_⟩
  intro it hit
  exact (reader_comps_dedup_by_id dbC9 outC9 (by decide) it hit).1

/-! ## Lemmas: ordering of the reader output -/

theorem sortedRows_sorted (db : DB) : List.Sorted rowLe (sortedRows db) :=
  List.sorted_insertionSort rowLe (flattenJoin db)

theorem sortedRows_perm (db : DB) : (sortedRows db).Perm (flattenJoin db) :=
  List.perm_insertionSort rowLe (flattenJoin db)

theorem rowLe_ts {a b : JoinRow} (h : rowLe a b) :
    b.data_hora_envio ≤ a.data_hora_envio := by
  rcases h with h | ⟨h, -⟩
  · omega
  · omega

theorem rowLe_item {a b : JoinRow} (h : rowLe a b)
    (hts : a.data_hora_envio = b.data_hora_envio) :
    oleN a.id_item_pedido b.id_item_pedido := by
  rcases h with h | ⟨-, h | ⟨h, -⟩⟩
  · omega
  · exact Or.inl h
  · exact Or.inr h

theorem rowLe_comp {a b : JoinRow} (h : rowLe a b)
    (hts : a.data_hora_envio = b.data_hora_envio)
    (hit : a.id_item_pedido = b.id_item_pedido) :
    oleN a.id_complemento_disponivel b.id_complemento_disponivel := by
  rcases h with h | ⟨-, h | ⟨-, h⟩⟩
  · omega
  · exact absurd (hit ▸ h) (fun hc => oltN_irrefl hc)
  · exact h

theorem rowOfPIC_pedido_fields (p : PedidoRow) (i : Option ItemRow) (c : Option CompRow) :
    (rowOfPIC p i c).id_pedido = p.id_pedido
    ∧ (rowOfPIC p i c).data_hora_envio = p.data_hora_envio := ⟨rfl, rfl⟩

theorem itemJoinRows_fields (db : DB) (p : PedidoRow) (i : ItemRow) :
    ∀ r ∈ itemJoinRows db p i,
      r.id_pedido = p.id_pedido ∧ r.data_hora_envio = p.data_hora_envio := by
  intro r hr
  rw [itemJoinRows] at hr
  rcases hfil : db.comps.filter (fun c => c.id_item_pedido = i.id_item_pedido) with
    _ | ⟨c, cs⟩
  · rw [hfil] at hr
    simp only [List.mem_singleton] at hr
    rw [hr]
    exact ⟨rfl, rfl⟩
  · rw [hfil] at hr
    rcases List.mem_map.mp hr with ⟨c', _, hc'⟩
    rw [← hc']
    exact ⟨rfl, rfl⟩

theorem itemJoinRows_ne_nil (db : DB) (p : PedidoRow) (i : ItemRow) :
    itemJoinRows db p i ≠ [] := by
  rw [itemJoinRows]
  rcases hfil : db.comps.filter (fun c => c.id_item_pedido = i.id_item_pedido) with
    _ | ⟨c, cs⟩
  · rw [hfil]
    simp
  · rw [hfil]
    simp

theorem pedidoJoinRows_fields (db : DB) (p : PedidoRow) :
    ∀ r ∈ pedidoJoinRows db p,
      r.id_pedido = p.id_pedido ∧ r.data_hora_envio = p.data_hora_envio := by
  intro r hr
  rw [pedidoJoinRows] at hr
  rcases hfil : db.itens.filter (fun i => i.id_pedido = p.id_pedido) with _ | ⟨i, is⟩
  · rw [hfil] at hr
    simp only [List.mem_singleton] at hr
    rw [hr]
    exact ⟨rfl, rfl⟩
  · rw [hfil] at hr
    rcases List.mem_flatMap.mp hr with ⟨i', _, hi'⟩
    exact itemJoinRows_fields db p i' r hi'

theorem pedidoJoinRows_ne_nil (db : DB) (p : PedidoRow) :
    pedidoJoinRows db p ≠ [] := by
  rw [pedidoJoinRows]
  rcases hfil : db.itens.filter (fun i => i.id_pedido = p.id_pedido) with _ | ⟨i, is⟩
  · rw [hfil]
    simp
  · rw [hfil]
    intro hc
    have h := List.flatMap_eq_nil_iff.mp hc
    exact itemJoinRows_ne_nil db p i (h i (by simp))

/-- Every joined row belongs to a stored order and carries its timestamp. -/
theorem flattenJoin_provenance (db : DB) :
    ∀ r ∈ flattenJoin db, ∃ p ∈ db.pedidos,
      r.id_pedido = p.id_pedido ∧ r.data_hora_envio = p.data_hora_envio := by
  intro r hr
  rcases List.mem_flatMap.mp hr with ⟨p, hp, hrp⟩
  exact ⟨p, hp, pedidoJoinRows_fields db p r hrp⟩

/-- Every stored order contributes at least one joined row. -/
theorem flattenJoin_cover (db : DB) :
    ∀ p ∈ db.pedidos, ∃ r ∈ flattenJoin db, r.id_pedido = p.id_pedido := by
  intro p hp
  rcases List.exists_mem_of_ne_nil _ (pedidoJoinRows_ne_nil db p) with ⟨r, hr⟩
  exact ⟨r, List.mem_flatMap.mpr ⟨p, hp, hr⟩, (pedidoJoinRows_fields db p r hr).1⟩

/-- With unique header ids, all rows of one order share one timestamp. -/
theorem flattenJoin_same_ts (db : DB) (h : (db.pedidos.map (·.id_pedido)).Nodup) :
    ∀ r1 ∈ flattenJoin db, ∀ r2 ∈ flattenJoin db,
      r1.id_pedido = r2.id_pedido → r1.data_hora_envio = r2.data_hora_envio := by
  intro r1 h1 r2 h2 hid
  rcases flattenJoin_provenance db r1 h1 with ⟨p1, hp1, hid1, hts1⟩
  rcases flattenJoin_provenance db r2 h2 with ⟨p2, hp2, hid2, hts2⟩
  have hpeq : p1 = p2 :=
    List.inj_on_of_nodup_map h hp1 hp2 (by rw [← hid1, ← hid2, hid])
  rw [hts1, hts2, hpeq]

theorem mem_orderRows {rows : List JoinRow} {oid : String} {x : JoinRow}
    (hx : x ∈ orderRows rows oid) : x ∈ rows ∧ x.id_pedido = oid := by
  rw [orderRows] at hx
  have := List.mem_filter.mp hx
  exact ⟨this.1, by simpa using this.2⟩

/-- C4: with unique header ids, the reader returns every stored order exactly
once, newest submission first, and within an order items appear in ascending
generated-id order and add-ons in ascending add-on-id order. -/
theorem reader_output_ordered (db : DB)
    (h : (db.pedidos.map (·.id_pedido)).Nodup) :
    ((getPedidos db).map (fun o => o.orderId)).Perm (db.pedidos.map (·.id_pedido))
    ∧ (getPedidos db).Pairwise (fun o1 o2 => o2.sentAt ≤ o1.sentAt)
    ∧ ∀ o ∈ getPedidos db,
        o.items.Pairwise (fun a b => oltN a.id_item_pedido b.id_item_pedido)
        ∧ ∀ it ∈ o.items,
          it.complements.Pairwise (fun a b => oltN a.id b.id) := by
  have hget : getPedidos db = specOrders (sortedRows db) := by
    rw [getPedidos, reconstruct_eq_specOrders]
  have hrowsPW : (sortedRows db).Pairwise rowLe := sortedRows_sorted db
  have hmemflat : ∀ x ∈ sortedRows db, x ∈ flattenJoin db := by
    intro x hx
    exact (sortedRows_perm db).mem_iff.mp hx
  refine ⟨?_, ?_, ?_⟩
  · rw [hget]
    have hmapK : (specOrders (sortedRows db)).map (fun o => o.orderId) =
        (keyedFirst (fun x => x.id_pedido) (sortedRows db) []).map
          (fun x => x.id_pedido) := by
      rw [specOrders, List.map_map]
      rfl
    rw [hmapK]
    refine List.perm_of_nodup_nodup_toFinset_eq
      (keyedFirst_key_nodup _ _ _) h (Finset.ext fun k => ?_)
    simp only [List.mem_toFinset]
    rw [keyedFirst_mem_key]
    constructor
    · rintro ⟨hk, -⟩
      rcases List.mem_map.mp hk with ⟨x, hx, hxk⟩
      rcases flattenJoin_provenance db x (hmemflat x hx) with ⟨p, hp, hid, -⟩
      rw [← hxk, hid]
      exact List.mem_map_of_mem _ hp
    · intro hk
      rcases List.mem_map.mp hk with ⟨p, hp, hpk⟩
      rcases flattenJoin_cover db p hp with ⟨r, hr, hrid⟩
      refine ⟨?_, by simp⟩
      rw [← hpk, ← hrid]
      exact List.mem_map_of_mem _ ((sortedRows_perm db).mem_iff.mpr hr)
  · rw [hget, specOrders]
    rw [List.pairwise_map]
    have hK := List.Pairwise.sublist
      (keyedFirst_sublist (fun x => x.id_pedido) (sortedRows db) []) hrowsPW
    exact hK.imp (fun hab => rowLe_ts hab)
  · intro o ho
    rw [hget] at ho
    rw [specOrders] at ho
    rcases List.mem_map.mp ho with ⟨fr, hfrK, hfro⟩
    have hitems : o.items = specItems (orderRows (sortedRows db) fr.id_pedido) := by
      rw [← hfro]
      rfl
    have hsubKFi : (itemFirstRows (orderRows (sortedRows db) fr.id_pedido)).Sublist
        (sortedRows db) := by
      refine ((keyedFirst_sublist _ _ _).trans (List.filter_sublist _)).trans ?_
      rw [orderRows]
      exact List.filter_sublist _
    have hKFimem : ∀ x ∈ itemFirstRows (orderRows (sortedRows db) fr.id_pedido),
        x ∈ flattenJoin db ∧ x.id_pedido = fr.id_pedido := by
      intro x hx
      have hx' : x ∈ orderRows (sortedRows db) fr.id_pedido :=
        (List.filter_sublist _).mem (keyedFirst_mem _ hx)
      have := mem_orderRows hx'
      exact ⟨hmemflat x this.1, this.2⟩
    constructor
    · rw [hitems, specItems, List.pairwise_map]
      have hPW : (itemFirstRows (orderRows (sortedRows db) fr.id_pedido)).Pairwise
          rowLe := List.Pairwise.sublist hsubKFi hrowsPW
      have hle : (itemFirstRows (orderRows (sortedRows db) fr.id_pedido)).Pairwise
          (fun a b => oleN a.id_item_pedido b.id_item_pedido) := by
        refine hPW.imp_of_mem ?_
        intro a b ha hb hab
        refine rowLe_item hab ?_
        exact flattenJoin_same_ts db h a (hKFimem a ha).1 b (hKFimem b hb).1
          ((hKFimem a ha).2.trans (hKFimem b hb).2.symm)
      have hne : (itemFirstRows (orderRows (sortedRows db) fr.id_pedido)).Pairwise
          (fun a b => a.id_item_pedido ≠ b.id_item_pedido) :=
        List.pairwise_map.mp (keyedFirst_key_nodup _ _ _)
      refine (hle.and hne).imp ?_
      rintro a b ⟨hle', hne'⟩
      rcases hle' with hlt | heq
      · exact hlt
      · exact absurd heq hne'
    · intro it hit
      rw [hitems, specItems] at hit
      rcases List.mem_map.mp hit with ⟨fr', hfr', hfr'it⟩
      have hcomps : it.complements =
          specComps (orderRows (sortedRows db) fr.id_pedido) fr'.id_item_pedido := by
        rw [← hfr'it]
      rw [hcomps, specComps, List.pairwise_map]
      have hsubKFc : (keyedFirst (fun r => r.id_complemento_disponivel)
          (compRows (orderRows (sortedRows db) fr.id_pedido) fr'.id_item_pedido)
          []).Sublist (sortedRows db) := by
        refine (keyedFirst_sublist _ _ _).trans ?_
        rw [compRows]
        refine ((List.filter_sublist _).trans (List.filter_sublist _)).trans ?_
        rw [orderRows]
        exact List.filter_sublist _
      have hKFcmem : ∀ x ∈ keyedFirst (fun r => r.id_complemento_disponivel)
          (compRows (orderRows (sortedRows db) fr.id_pedido) fr'.id_item_pedido) [],
          x ∈ flattenJoin db ∧ x.id_pedido = fr.id_pedido
            ∧ x.id_item_pedido = fr'.id_item_pedido := by
        intro x hx
        have hx1 : x ∈ compRows (orderRows (sortedRows db) fr.id_pedido)
            fr'.id_item_pedido := keyedFirst_mem _ hx
        rw [compRows] at hx1
        have hx2 := (List.mem_filter.mp hx1).1
        have hx3 := List.mem_filter.mp hx2
        have hx4 := mem_orderRows hx3.1
        exact ⟨hmemflat x hx4.1, hx4.2, by simpa using hx3.2⟩
      have hPW := List.Pairwise.sublist hsubKFc hrowsPW
      have hle : (keyedFirst (fun r => r.id_complemento_disponivel)
          (compRows (orderRows (sortedRows db) fr.id_pedido) fr'.id_item_pedido)
          []).Pairwise
          (fun a b => oleN a.id_complemento_disponivel b.id_complemento_disponivel) := by
        refine hPW.imp_of_mem ?_
        intro a b ha hb hab
        refine rowLe_comp hab ?_ ?_
        · exact flattenJoin_same_ts db h a (hKFcmem a ha).1 b (hKFcmem b hb).1
            ((hKFcmem a ha).2.1.trans (hKFcmem b hb).2.1.symm)
        · exact (hKFcmem a ha).2.2.trans (hKFcmem b hb).2.2.symm
      have hne := List.pairwise_map.mp
        (keyedFirst_key_nodup (fun r : JoinRow => r.id_complemento_disponivel)
          (compRows (orderRows (sortedRows db) fr.id_pedido) fr'.id_item_pedido) [])
      refine (hle.and hne).imp ?_
      rintro a b ⟨hle', hne'⟩
      rcases hle' with hlt | heq
      · exact hlt
      · exact absurd heq hne'

/-- Two orders with distinct timestamps, the older one with two items and
two add-ons on its first item. -/
def dbC4 : DB :=
  ⟨[], [⟨"o1", "Ana", none, "mesa", none, some 5, "", "pix", none, 30, "pendente", 100⟩,
    ⟨"o2", "Bob", none, "entrega", some "Rua 1", none, "", "cartao", none, 10,
      "pendente", 200⟩],
    [⟨1, "o1", 7, "X", 2, 10, 15, 30⟩, ⟨2, "o1", 8, "Y", 1, 5, 5, 5⟩],
    [⟨1, 3, "cheese", 5⟩, ⟨1, 4, "bacon", 7⟩], 3⟩

theorem reader_output_ordered_witness :
    ((getPedidos dbC4).map (fun o => o.orderId)).Perm (dbC4.pedidos.map (·.id_pedido))
    ∧ (getPedidos dbC4).Pairwise (fun o1 o2 => o2.sentAt ≤ o1.sentAt) :=
  ⟨(reader_output_ordered dbC4 (by decide)).1,
    (reader_output_ordered dbC4 (by decide)).2.1⟩

/-! ## Lemmas: shape of a written order and the read-back counts -/

/-- The line-item rows a write appends, ids generated from `base`. -/
def newItemRows (oid : String) (base : Nat) : List ItemPayload → List ItemRow
  | [] => []
  | it :: rest => mkItemRow oid base it :: newItemRows oid (base + 1) rest

/-- The add-on rows a write appends, grouped per item. -/
def newCompRows (base : Nat) : List ItemPayload → List CompRow
  | [] => []
  | it :: rest => it.complements.map (mkCompRow base) ++ newCompRows (base + 1) rest

theorem writeComps_eq (iid : Nat) : ∀ (cs : List CompPayload) (db : DB),
    writeComps iid cs db = { db with comps := db.comps ++ cs.map (mkCompRow iid) }
  | [], db => by simp [writeComps]
  | c :: rest, db => by
      rw [writeComps, writeComps_eq iid rest]
      simp [insComp, List.append_assoc]

theorem writeItems_eq (oid : String) : ∀ (its : List ItemPayload) (db : DB),
    writeItems oid its db =
      { db with
          itens := db.itens ++ newItemRows oid db.nextItemId its
          comps := db.comps ++ newCompRows db.nextItemId its
          nextItemId := db.nextItemId + its.length }
  | [], db => by simp [writeItems, newItemRows, newCompRows]
  | it :: rest, db => by
      rw [writeItems, writeComps_eq, writeItems_eq oid rest]
      simp [insItem, newItemRows, newCompRows, List.append_assoc]
      omega

theorem newItemRows_append (oid : String) :
    ∀ (l1 l2 : List ItemPayload) (b : Nat),
    newItemRows oid b (l1 ++ l2) =
      newItemRows oid b l1 ++ newItemRows oid (b + l1.length) l2
  | [], l2, b => by simp [newItemRows]
  | it :: l1, l2, b => by
      rw [List.cons_append, newItemRows, newItemRows,
        newItemRows_append oid l1 l2 (b + 1)]
      simp only [List.length_cons, List.cons_append]
      rw [show b + 1 + l1.length = b + (l1.length + 1) by omega]

theorem newCompRows_append :
    ∀ (l1 l2 : List ItemPayload) (b : Nat),
    newCompRows b (l1 ++ l2) =
      newCompRows b l1 ++ newCompRows (b + l1.length) l2
  | [], l2, b => by simp [newCompRows]
  | it :: l1, l2, b => by
      rw [List.cons_append, newCompRows, newCompRows,
        newCompRows_append l1 l2 (b + 1)]
      simp only [List.length_cons, List.append_assoc]
      rw [show b + 1 + l1.length = b + (l1.length + 1) by omega]

theorem newItemRows_oid (oid : String) :
    ∀ (its : List ItemPayload) (b : Nat),
    ∀ x ∈ newItemRows oid b its, x.id_pedido = oid
  | [], _, x, hx => by simp [newItemRows] at hx
  | it :: rest, b, x, hx => by
      rw [newItemRows] at hx
      rcases List.mem_cons.mp hx with hx | hx
      · rw [hx]
        rfl
      · exact newItemRows_oid oid rest (b + 1) x hx

theorem newCompRows_iid_ge :
    ∀ (its : List ItemPayload) (b : Nat),
    ∀ x ∈ newCompRows b its, b ≤ x.id_item_pedido
  | [], _, x, hx => by simp [newCompRows] at hx
  | it :: rest, b, x, hx => by
      rw [newCompRows] at hx
      rcases List.mem_append.mp hx with hx | hx
      · rcases List.mem_map.mp hx with ⟨c, -, hc⟩
        rw [← hc]
        exact Nat.le_refl b
      · exact Nat.le_trans (Nat.le_succ b) (newCompRows_iid_ge rest (b + 1) x hx)

/-- `newCompRows` filtered to an id below every generated id is empty. -/
theorem newCompRows_filter_low (its : List ItemPayload) (b iid : Nat)
    (h : iid < b) :
    (newCompRows b its).filter (fun c => c.id_item_pedido = iid) = [] := by
  rw [List.filter_eq_nil_iff]
  intro x hx hcon
  simp only [decide_eq_true_eq] at hcon
  have := newCompRows_iid_ge its b x hx
  omega

/-- `newCompRows` filtered to the j-th generated id yields exactly the j-th
item's add-on rows. -/
theorem newCompRows_filter :
    ∀ (its : List ItemPayload) (b j : Nat) (it' : ItemPayload),
    its.get? j = some it' →
    (newCompRows b its).filter (fun c => c.id_item_pedido = b + j) =
      it'.complements.map (mkCompRow (b + j))
  | [], _, j, _, hj => by simp at hj
  | it :: rest, b, 0, it', hj => by
      simp only [List.get?_cons_zero, Option.some_inj] at hj
      rw [newCompRows, List.filter_append,
        newCompRows_filter_low rest (b + 1) (b + 0) (by omega), List.append_nil]
      rw [List.filter_eq_self.mpr (by
        intro x hx
        rcases List.mem_map.mp hx with ⟨c, -, hc⟩
        simp only [← hc, mkCompRow, decide_eq_true_eq]
        omega), hj, Nat.add_zero]
  | it :: rest, b, j + 1, it', hj => by
      simp only [List.get?_cons_succ] at hj
      rw [newCompRows, List.filter_append]
      rw [List.filter_eq_nil_iff.mpr (by
        intro x hx hcon
        rcases List.mem_map.mp hx with ⟨c, -, hc⟩
        simp only [← hc, mkCompRow, decide_eq_true_eq] at hcon
        omega), List.nil_append]
      have := newCompRows_filter rest (b + 1) j it' hj
      rwa [show b + 1 + j = b + (j + 1) by omega] at this

/-- The joined rows of one freshly written line item. -/
def itemBlock (hdr : PedidoRow) (oid : String) (iid : Nat) (it : ItemPayload) :
    List JoinRow :=
  match it.complements.map (mkCompRow iid) with
  | [] => [rowOfPIC hdr (some (mkItemRow oid iid it)) none]
  | cs => cs.map (fun c => rowOfPIC hdr (some (mkItemRow oid iid it)) (some c))

/-- The joined rows of a freshly written non-empty item list. -/
def orderBlock (hdr : PedidoRow) (oid : String) (base : Nat) :
    List ItemPayload → List JoinRow
  | [] => []
  | it :: rest => itemBlock hdr oid base it ++ orderBlock hdr oid (base + 1) rest

/-- In a database whose `comps` filter at each generated id gives exactly the
written add-on rows, the join of the written items is the block. -/
theorem flatMap_newItemRows (d : DB) (hdr : PedidoRow) (oid : String) :
    ∀ (its : List ItemPayload) (b : Nat),
    (∀ j it', its.get? j = some it' →
      d.comps.filter (fun c => c.id_item_pedido = b + j) =
        it'.complements.map (mkCompRow (b + j))) →
    (newItemRows oid b its).flatMap (itemJoinRows d hdr) = orderBlock hdr oid b its
  | [], b, _ => by simp [newItemRows, orderBlock]
  | it :: rest, b, h => by
      rw [newItemRows, List.flatMap_cons, orderBlock]
      have hfil : d.comps.filter
          (fun c => c.id_item_pedido = (mkItemRow oid b it).id_item_pedido) =
          it.complements.map (mkCompRow b) := by
        have := h 0 it rfl
        simpa [mkItemRow] using this
      have hhead : itemJoinRows d hdr (mkItemRow oid b it) =
          itemBlock hdr oid b it := by
        rw [itemJoinRows, itemBlock, hfil]
      rw [hhead, flatMap_newItemRows d hdr oid rest (b + 1) (by
        intro j it' hj
        have := h (j + 1) it' (by simpa using hj)
        rwa [show b + (j + 1) = b + 1 + j by omega] at this)]

/-- The rows of the joined output restricted to one order id are the rows
contributed by the headers carrying that id. -/
theorem orderRows_flattenJoin (db : DB) (oid : String) :
    orderRows (flattenJoin db) oid =
      (db.pedidos.filter (fun q => q.id_pedido = oid)).flatMap (pedidoJoinRows db) := by
  rw [orderRows, flattenJoin]
  induction db.pedidos with
  | nil => rfl
  | cons q l ih =>
      rw [List.flatMap_cons, List.filter_append, ih]
      by_cases hq : q.id_pedido = oid
      · rw [List.filter_cons_of_pos (by simpa using hq), List.flatMap_cons]
        rw [List.filter_eq_self.mpr (by
          intro x hx
          simpa using (pedidoJoinRows_fields db q x hx).1.trans hq)]
      · rw [List.filter_cons_of_neg (by simpa using hq)]
        rw [List.filter_eq_nil_iff.mpr (by
          intro x hx hcon
          simp only [decide_eq_true_eq] at hcon
          exact hq (((pedidoJoinRows_fields db q x hx).1.symm.trans hcon))),
          List.nil_append]

/-- The joined rows of a written order: its block, or the single NULL-item
row when the order has no items. -/
def fullBlock (hdr : PedidoRow) (oid : String) (base : Nat) :
    List ItemPayload → List JoinRow
  | [] => [rowOfPIC hdr none none]
  | its => orderBlock hdr oid base its

theorem fullBlock_of_ne_nil (hdr : PedidoRow) (oid : String) (base : Nat)
    {its : List ItemPayload} (h : its ≠ []) :
    fullBlock hdr oid base its = orderBlock hdr oid base its := by
  rcases its with _ | ⟨it0, rest⟩
  · exact absurd rfl h
  · rfl

/-- The written database restricted to the written order id joins to exactly
its block (or the single NULL-item row when the order has no items). -/
theorem orderRows_flatten_written (db0 : DB) (hdr : PedidoRow) (base : Nat)
    (its : List ItemPayload) (db' : DB)
    (hdb' : db' = { db0 with
        pedidos := db0.pedidos ++ [hdr]
        itens := db0.itens ++ newItemRows hdr.id_pedido base its
        comps := db0.comps ++ newCompRows base its
        nextItemId := base + its.length })
    (h1 : ∀ q ∈ db0.pedidos, q.id_pedido ≠ hdr.id_pedido)
    (h2 : ∀ it ∈ db0.itens, it.id_pedido ≠ hdr.id_pedido)
    (h3 : ∀ c ∈ db0.comps, c.id_item_pedido < base) :
    orderRows (flattenJoin db') hdr.id_pedido = fullBlock hdr hdr.id_pedido base its := by
  have hpedidos : db'.pedidos.filter (fun q => q.id_pedido = hdr.id_pedido) = [hdr] := by
    rw [hdb']
    show (db0.pedidos ++ [hdr]).filter (fun q => q.id_pedido = hdr.id_pedido) = [hdr]
    rw [List.filter_append, List.filter_eq_nil_iff.mpr (by
      intro q hq hcon
      simp only [decide_eq_true_eq] at hcon
      exact h1 q hq hcon), List.nil_append]
    simp
  rw [orderRows_flattenJoin, hpedidos, List.flatMap_cons, List.flatMap_nil,
    List.append_nil]
  have hitens : db'.itens.filter (fun i => i.id_pedido = hdr.id_pedido) =
      newItemRows hdr.id_pedido base its := by
    rw [hdb']
    show (db0.itens ++ newItemRows hdr.id_pedido base its).filter
        (fun i => i.id_pedido = hdr.id_pedido) = newItemRows hdr.id_pedido base its
    rw [List.filter_append, List.filter_eq_nil_iff.mpr (by
      intro i hi hcon
      simp only [decide_eq_true_eq] at hcon
      exact h2 i hi hcon), List.nil_append]
    rw [List.filter_eq_self.mpr (by
      intro x hx
      simpa using newItemRows_oid hdr.id_pedido its base x hx)]
  have hcomps : ∀ j it', its.get? j = some it' →
      db'.comps.filter (fun c => c.id_item_pedido = base + j) =
        it'.complements.map (mkCompRow (base + j)) := by
    intro j it' hj
    rw [hdb']
    show (db0.comps ++ newCompRows base its).filter
        (fun c => c.id_item_pedido = base + j) = it'.complements.map (mkCompRow (base + j))
    rw [List.filter_append, List.filter_eq_nil_iff.mpr (by
      intro c hc hcon
      simp only [decide_eq_true_eq] at hcon
      have := h3 c hc
      omega), List.nil_append]
    exact newCompRows_filter its base j it' hj
  rw [pedidoJoinRows, hitens]
  rcases its with _ | ⟨it, rest⟩
  · rfl
  · show (newItemRows hdr.id_pedido base (it :: rest)).flatMap (itemJoinRows db' hdr)
        = fullBlock hdr hdr.id_pedido base (it :: rest)
    rw [fullBlock_of_ne_nil hdr hdr.id_pedido base (by simp)]
    exact flatMap_newItemRows db' hdr hdr.id_pedido (it :: rest) base hcomps

theorem itemBlock_iid (hdr : PedidoRow) (oid : String) (iid : Nat) (it : ItemPayload) :
    ∀ r ∈ itemBlock hdr oid iid it, r.id_item_pedido = some iid := by
  intro r hr
  rw [itemBlock] at hr
  rcases hm : it.complements.map (mkCompRow iid) with _ | ⟨c, cs⟩
  · rw [hm] at hr
    simp only [List.mem_singleton] at hr
    rw [hr]
    rfl
  · rw [hm] at hr
    rcases List.mem_map.mp hr with ⟨c', -, hc'⟩
    rw [← hc']
    rfl

theorem itemBlock_ne_nil (hdr : PedidoRow) (oid : String) (iid : Nat)
    (it : ItemPayload) : itemBlock hdr oid iid it ≠ [] := by
  rw [itemBlock]
  rcases hm : it.complements.map (mkCompRow iid) with _ | ⟨c, cs⟩
  · simp
  · simp

theorem orderBlock_iid_mem (hdr : PedidoRow) (oid : String) :
    ∀ (its : List ItemPayload) (b : Nat),
    ∀ r ∈ orderBlock hdr oid b its, ∃ j, j < its.length ∧ r.id_item_pedido = some (b + j)
  | [], _, r, hr => by simp [orderBlock] at hr
  | it :: rest, b, r, hr => by
      rw [orderBlock] at hr
      rcases List.mem_append.mp hr with hr | hr
      · exact ⟨0, by simp, by simpa using itemBlock_iid hdr oid b it r hr⟩
      · rcases orderBlock_iid_mem hdr oid rest (b + 1) r hr with ⟨j, hj, hid⟩
        exact ⟨j + 1, by simpa using Nat.succ_lt_succ hj, by
          rwa [show b + (j + 1) = b + 1 + j by omega]⟩

theorem orderBlock_iid_cover (hdr : PedidoRow) (oid : String) :
    ∀ (its : List ItemPayload) (b : Nat) (j : Nat), j < its.length →
    ∃ r ∈ orderBlock hdr oid b its, r.id_item_pedido = some (b + j)
  | [], _, j, hj => by simp at hj
  | it :: rest, b, 0, _ => by
      rcases List.exists_mem_of_ne_nil _ (itemBlock_ne_nil hdr oid b it) with ⟨r, hr⟩
      exact ⟨r, by
        rw [orderBlock]
        exact List.mem_append_left _ hr, by
        simpa using itemBlock_iid hdr oid b it r hr⟩
  | it :: rest, b, j + 1, hj => by
      rcases orderBlock_iid_cover hdr oid rest (b + 1) j (by simpa using Nat.lt_of_succ_lt_succ hj)
        with ⟨r, hr, hid⟩
      refine ⟨r, by
        rw [orderBlock]
        exact List.mem_append_right _ hr, ?_⟩
      rwa [show b + (j + 1) = b + 1 + j by omega]

theorem orderBlock_filter_low (hdr : PedidoRow) (oid : String)
    (its : List ItemPayload) (b m : Nat) (h : m < b) :
    (orderBlock hdr oid b its).filter
      (fun r => r.id_item_pedido = some m) = [] := by
  rw [List.filter_eq_nil_iff]
  intro r hr hcon
  simp only [decide_eq_true_eq] at hcon
  rcases orderBlock_iid_mem hdr oid its b r hr with ⟨j, -, hid⟩
  rw [hid] at hcon
  have : b + j = m := by
    simpa using hcon
  omega

theorem orderBlock_filter_iid (hdr : PedidoRow) (oid : String) :
    ∀ (its : List ItemPayload) (b j : Nat) (it' : ItemPayload),
    its.get? j = some it' →
    (orderBlock hdr oid b its).filter (fun r => r.id_item_pedido = some (b + j)) =
      itemBlock hdr oid (b + j) it'
  | [], _, j, _, hj => by simp at hj
  | it :: rest, b, 0, it', hj => by
      simp only [List.get?_cons_zero, Option.some_inj] at hj
      rw [orderBlock, List.filter_append,
        orderBlock_filter_low hdr oid rest (b + 1) (b + 0) (by omega), List.append_nil]
      rw [List.filter_eq_self.mpr (by
        intro r hr
        have := itemBlock_iid hdr oid b it r hr
        simp [this]), hj, Nat.add_zero]
  | it :: rest, b, j + 1, it', hj => by
      simp only [List.get?_cons_succ] at hj
      rw [orderBlock, List.filter_append,
        List.filter_eq_nil_iff.mpr (by
          intro r hr hcon
          simp only [decide_eq_true_eq] at hcon
          have := itemBlock_iid hdr oid b it r hr
          rw [this] at hcon
          simp only [Option.some_inj] at hcon
          omega), List.nil_append]
      have := orderBlock_filter_iid hdr oid rest (b + 1) j it' hj
      rwa [show b + 1 + j = b + (j + 1) by omega] at this

theorem itemBlock_of_comps_nil (hdr : PedidoRow) (oid : String) (iid : Nat)
    (it : ItemPayload) (hm : it.complements = []) :
    itemBlock hdr oid iid it = [rowOfPIC hdr (some (mkItemRow oid iid it)) none] := by
  rw [itemBlock, hm]
  rfl

theorem itemBlock_of_comps_cons (hdr : PedidoRow) (oid : String) (iid : Nat)
    (it : ItemPayload) (c0 : CompPayload) (cs : List CompPayload)
    (hm : it.complements = c0 :: cs) :
    itemBlock hdr oid iid it =
      it.complements.map (fun c =>
        rowOfPIC hdr (some (mkItemRow oid iid it)) (some (mkCompRow iid c))) := by
  rw [itemBlock, hm, List.map_cons]
  show (mkCompRow iid c0 :: cs.map (mkCompRow iid)).map
      (fun c => rowOfPIC hdr (some (mkItemRow oid iid it)) (some c)) = _
  rw [← List.map_cons, List.map_map]
  rfl

/-- The truthy-add-on rows of a written item block carry exactly the item's
payload add-on ids (when none of them is the falsy 0). -/
theorem itemBlock_comp_ids (hdr : PedidoRow) (oid : String) (iid : Nat)
    (it : ItemPayload) (hids : ∀ c ∈ it.complements, c.id ≠ 0) :
    ((itemBlock hdr oid iid it).filter
        (fun r => decide (truthyN r.id_complemento_disponivel))).map
      (fun r => r.id_complemento_disponivel) =
    it.complements.map (fun c => some c.id) := by
  rcases hm : it.complements with _ | ⟨c0, cs⟩
  · rw [itemBlock_of_comps_nil hdr oid iid it hm]
    rfl
  · rw [itemBlock_of_comps_cons hdr oid iid it c0 cs hm]
    rw [List.filter_eq_self.mpr (by
      intro r hr
      rcases List.mem_map.mp hr with ⟨c, hc, hcr⟩
      rw [← hcr]
      have : c.id ≠ 0 := hids c hc
      simpa [rowOfPIC, mkCompRow, truthyN] using this)]
    rw [List.map_map, hm]
    rfl

/-- Length of the first-seen list: the number of distinct keys. -/
theorem keyedFirst_length_nil {α : Type u} {κ : Type v} [DecidableEq κ]
    (key : α → κ) (l : List α) :
    (keyedFirst key l []).length = ((l.map key).toFinset).card := by
  have hnodup := keyedFirst_key_nodup key l ([] : List κ)
  rw [show (keyedFirst key l []).length = ((keyedFirst key l []).map key).length from
    (List.length_map _ _).symm, ← List.toFinset_card_of_nodup hnodup]
  congr 1
  ext k
  simp only [List.mem_toFinset]
  rw [keyedFirst_mem_key]
  simp

theorem orderBlock_truthy_filter (hdr : PedidoRow) (oid : String)
    (its : List ItemPayload) (b : Nat) (h4 : 1 ≤ b) :
    (orderBlock hdr oid b its).filter (fun r => decide (truthyN r.id_item_pedido))
      = orderBlock hdr oid b its := by
  rw [List.filter_eq_self]
  intro r hr
  rcases orderBlock_iid_mem hdr oid its b r hr with ⟨j, -, hid⟩
  rw [hid]
  simp only [decide_eq_true_eq, truthyN]
  omega

theorem orderBlock_iid_finset (hdr : PedidoRow) (oid : String)
    (its : List ItemPayload) (b : Nat) (h4 : 1 ≤ b) :
    ((((orderBlock hdr oid b its).filter
        (fun r => decide (truthyN r.id_item_pedido))).map
      (fun r => r.id_item_pedido)).toFinset)
    = (Finset.range its.length).image (fun j => (some (b + j) : Option Nat)) := by
  rw [orderBlock_truthy_filter hdr oid its b h4]
  ext x
  simp only [List.mem_toFinset, Finset.mem_image, Finset.mem_range]
  constructor
  · intro hx
    rcases List.mem_map.mp hx with ⟨r, hr, hrx⟩
    rcases orderBlock_iid_mem hdr oid its b r hr with ⟨j, hj, hid⟩
    exact ⟨j, hj, by rw [← hrx, hid]⟩
  · rintro ⟨j, hj, hx⟩
    rcases orderBlock_iid_cover hdr oid its b j hj with ⟨r, hr, hid⟩
    refine List.mem_map.mpr ⟨r, hr, ?_⟩
    rw [hid, hx]

theorem orderBlock_item_count (hdr : PedidoRow) (oid : String)
    (its : List ItemPayload) (b : Nat) (h4 : 1 ≤ b) :
    ((((orderBlock hdr oid b its).filter
        (fun r => decide (truthyN r.id_item_pedido))).map
      (fun r => r.id_item_pedido)).toFinset).card = its.length := by
  rw [orderBlock_iid_finset hdr oid its b h4,
    Finset.card_image_of_injective _ (by
      intro a b' hab
      simp only [Option.some_inj] at hab
      omega),
    Finset.card_range]

/-- Reading back a freshly written order: one response entry for its id,
one item per written item (keyed by the generated ids `base + j`), each with
one add-on entry per written add-on. -/
theorem written_order_read_back (db0 : DB) (hdr : PedidoRow) (base : Nat)
    (its : List ItemPayload) (db' : DB)
    (hdb' : db' = { db0 with
        pedidos := db0.pedidos ++ [hdr]
        itens := db0.itens ++ newItemRows hdr.id_pedido base its
        comps := db0.comps ++ newCompRows base its
        nextItemId := base + its.length })
    (h1 : ∀ q ∈ db0.pedidos, q.id_pedido ≠ hdr.id_pedido)
    (h2 : ∀ it ∈ db0.itens, it.id_pedido ≠ hdr.id_pedido)
    (h3 : ∀ c ∈ db0.comps, c.id_item_pedido < base)
    (h4 : 1 ≤ base)
    (h5 : ∀ item ∈ its, (item.complements.map (fun c => c.id)).Nodup
        ∧ ∀ c ∈ item.complements, c.id ≠ 0) :
    ∃ o ∈ getPedidos db', o.orderId = hdr.id_pedido
      ∧ o.items.length = its.length
      ∧ (∀ j (hj : j < its.length),
          ∃ it ∈ o.items, it.id_item_pedido = some (base + j)
            ∧ it.complements.length = (its.get ⟨j, hj⟩).complements.length)
      ∧ ∀ o2 ∈ getPedidos db', o2.orderId = hdr.id_pedido → o2 = o := by
  have hget : getPedidos db' = specOrders (sortedRows db') := by
    rw [getPedidos, reconstruct_eq_specOrders]
  have hperm := sortedRows_perm db'
  have hhdrmem : hdr ∈ db'.pedidos := by
    rw [hdb']
    show hdr ∈ db0.pedidos ++ [hdr]
    exact List.mem_append_right _ (by simp)
  have hmemrows : hdr.id_pedido ∈ (sortedRows db').map (fun x => x.id_pedido) := by
    rcases flattenJoin_cover db' hdr hhdrmem with ⟨r, hr, hrid⟩
    exact List.mem_map.mpr ⟨r, hperm.mem_iff.mpr hr, hrid⟩
  have hkmem : hdr.id_pedido ∈
      (keyedFirst (fun x => x.id_pedido) (sortedRows db') []).map
        (fun x => x.id_pedido) :=
    (keyedFirst_mem_key _ _ _ _).mpr ⟨hmemrows, by simp⟩
  rcases List.mem_map.mp hkmem with ⟨fr0, hfr0K, hfr0id⟩
  have horows : (orderRows (sortedRows db') hdr.id_pedido).Perm
      (fullBlock hdr hdr.id_pedido base its) := by
    have hfil : (orderRows (sortedRows db') hdr.id_pedido).Perm
        (orderRows (flattenJoin db') hdr.id_pedido) := by
      rw [orderRows, orderRows]
      exact List.Perm.filter _ hperm
    have hB := orderRows_flatten_written db0 hdr base its db' hdb' h1 h2 h3
    rw [hB] at hfil
    exact hfil
  have hitems : (specOrder (sortedRows db') fr0).items
      = specItems (orderRows (sortedRows db') hdr.id_pedido) := by
    show specItems (orderRows (sortedRows db') fr0.id_pedido) = _
    rw [hfr0id]
  refine ⟨specOrder (sortedRows db') fr0, ?_, ?_, ?_, ?_, ?_⟩
  · rw [hget, specOrders]
    exact List.mem_map_of_mem _ hfr0K
  · rw [specOrder_orderId, hfr0id]
  · rw [hitems, specItems, List.length_map, itemFirstRows, keyedFirst_length_nil]
    have htf : (((orderRows (sortedRows db') hdr.id_pedido).filter
        (fun r => decide (truthyN r.id_item_pedido))).map
          (fun r => r.id_item_pedido)).toFinset
        = (((fullBlock hdr hdr.id_pedido base its).filter
          (fun r => decide (truthyN r.id_item_pedido))).map
            (fun r => r.id_item_pedido)).toFinset :=
      List.toFinset_eq_of_perm _ _ ((horows.filter _).map _)
    rw [htf]
    rcases its with _ | ⟨it0, rest⟩
    · rfl
    · rw [fullBlock_of_ne_nil hdr hdr.id_pedido base (by simp)]
      exact orderBlock_item_count hdr hdr.id_pedido (it0 :: rest) base h4
  · intro j hj
    have hne : its ≠ [] := by
      intro hc
      rw [hc] at hj
      simp at hj
    rw [fullBlock_of_ne_nil hdr hdr.id_pedido base hne] at horows
    have hjmem : (some (base + j) : Option Nat) ∈
        ((orderRows (sortedRows db') hdr.id_pedido).filter
          (fun r => decide (truthyN r.id_item_pedido))).map
            (fun r => r.id_item_pedido) := by
      rcases orderBlock_iid_cover hdr hdr.id_pedido its base j hj with ⟨r, hr, hid⟩
      have hrmem : r ∈ (orderRows (sortedRows db') hdr.id_pedido).filter
          (fun r => decide (truthyN r.id_item_pedido)) := by
        refine List.mem_filter.mpr ⟨horows.mem_iff.mpr hr, ?_⟩
        rw [hid]
        simp only [decide_eq_true_eq, truthyN]
        omega
      exact List.mem_map.mpr ⟨r, hrmem, hid⟩
    have hfr'ex : (some (base + j) : Option Nat) ∈
        (itemFirstRows (orderRows (sortedRows db') hdr.id_pedido)).map
          (fun r => r.id_item_pedido) := by
      rw [itemFirstRows]
      exact (keyedFirst_mem_key _ _ _ _).mpr ⟨hjmem, by simp⟩
    rcases List.mem_map.mp hfr'ex with ⟨fr', hfr', hfr'id⟩
    refine ⟨{ mkItem fr' with
        complements := specComps (orderRows (sortedRows db') hdr.id_pedido)
          fr'.id_item_pedido }, ?_, ?_, ?_⟩
    · rw [hitems, specItems]
      exact List.mem_map_of_mem _ hfr'
    · exact hfr'id
    · show (specComps (orderRows (sortedRows db') hdr.id_pedido)
          fr'.id_item_pedido).length = _
      rw [hfr'id, specComps, List.length_map, keyedFirst_length_nil]
      have hpermc : (compRows (orderRows (sortedRows db') hdr.id_pedido)
          (some (base + j))).Perm
          (compRows (orderBlock hdr hdr.id_pedido base its) (some (base + j))) := by
        rw [compRows, compRows]
        exact ((horows.filter _).filter _)
      rw [List.toFinset_eq_of_perm _ _ (hpermc.map _)]
      have hcr : compRows (orderBlock hdr hdr.id_pedido base its) (some (base + j))
          = (itemBlock hdr hdr.id_pedido (base + j) (its.get ⟨j, hj⟩)).filter
              (fun r => decide (truthyN r.id_complemento_disponivel)) := by
        rw [compRows, orderBlock_filter_iid hdr hdr.id_pedido its base j
          (its.get ⟨j, hj⟩) (List.get?_eq_get hj)]
      rw [hcr, itemBlock_comp_ids hdr hdr.id_pedido (base + j) (its.get ⟨j, hj⟩)
        (h5 (its.get ⟨j, hj⟩) (List.get_mem its j hj)).2]
      have hnodup : ((its.get ⟨j, hj⟩).complements.map (fun c => some c.id)).Nodup := by
        rw [show (its.get ⟨j, hj⟩).complements.map (fun c => (some c.id : Option Nat))
            = ((its.get ⟨j, hj⟩).complements.map (fun c => c.id)).map some from by
          rw [List.map_map]
          rfl]
        exact List.Nodup.map (Option.some_injective _)
          (h5 (its.get ⟨j, hj⟩) (List.get_mem its j hj)).1
      rw [List.toFinset_card_of_nodup hnodup, List.length_map]
  · intro o2 ho2 ho2id
    have hmapK : (specOrders (sortedRows db')).map (fun o => o.orderId) =
        (keyedFirst (fun x => x.id_pedido) (sortedRows db') []).map
          (fun x => x.id_pedido) := by
      rw [specOrders, List.map_map]
      rfl
    have hnodupK : ((specOrders (sortedRows db')).map (fun o => o.orderId)).Nodup := by
      rw [hmapK]
      exact keyedFirst_key_nodup _ _ _
    rw [hget] at ho2
    refine List.inj_on_of_nodup_map hnodupK ho2 ?_ ?_
    · rw [specOrders]
      exact List.mem_map_of_mem _ hfr0K
    · rw [ho2id, specOrder_orderId, hfr0id]

/-- A fresh write is exactly an append of the header, item and add-on rows. -/
theorem writePedido_shape (db : DB) (p : OrderPayload) (now : Nat)
    (h1 : ∀ q ∈ db.pedidos, q.id_pedido ≠ p.orderId) :
    writePedido now db p = { db with
        pedidos := db.pedidos ++ [pedidoRowOfPayload p now]
        itens := db.itens ++ newItemRows p.orderId db.nextItemId p.items
        comps := db.comps ++ newCompRows db.nextItemId p.items
        nextItemId := db.nextItemId + p.items.length } := by
  rw [writePedido, writeItems_eq, insertPedido, if_neg (by
    rintro ⟨q, hq, hqid⟩
    exact h1 q hq (by simpa [pedidoRowOfPayload] using hqid))]

/-- C2: a successfully submitted fresh order reads back with exactly its
N items (keyed by the generated ids) and each item's Mi add-ons, despite the
flattened join's row multiplicity; the order appears exactly once. -/
theorem order_roundtrip (db : DB) (p : OrderPayload) (now : Nat)
    (h1 : ∀ q ∈ db.pedidos, q.id_pedido ≠ p.orderId)
    (h2 : ∀ it ∈ db.itens, it.id_pedido ≠ p.orderId)
    (h3 : ∀ c ∈ db.comps, c.id_item_pedido < db.nextItemId)
    (h4 : 1 ≤ db.nextItemId)
    (h5 : ∀ item ∈ p.items, (item.complements.map (fun c => c.id)).Nodup
        ∧ ∀ c ∈ item.complements, c.id ≠ 0) :
    ∃ o ∈ getPedidos (writePedido now db p), o.orderId = p.orderId
      ∧ o.items.length = p.items.length
      ∧ (∀ j (hj : j < p.items.length),
          ∃ it ∈ o.items, it.id_item_pedido = some (db.nextItemId + j)
            ∧ it.complements.length = (p.items.get ⟨j, hj⟩).complements.length)
      ∧ ∀ o2 ∈ getPedidos (writePedido now db p), o2.orderId = p.orderId → o2 = o := by
  exact written_order_read_back db (pedidoRowOfPayload p now) db.nextItemId p.items
    (writePedido now db p) (writePedido_shape db p now h1) h1 h2 h3 h4 h5

theorem order_roundtrip_witness :
    ∃ o ∈ getPedidos (writePedido 999 dbW payW), o.orderId = "o9"
      ∧ o.items.length = 2 := by
  obtain ⟨o, hmem, hoid, hlen, -, -⟩ :=
    order_roundtrip dbW payW 999 (by decide) (by decide) (by decide) (by decide)
      (by decide)
  exact ⟨o, hmem, hoid, hlen⟩

/-- C8: resubmitting an order under an existing id is not a no-op: the header
insert is ignored but the items and add-ons are inserted again, so after two
identical submissions the order reads back with 2·N items — and the handler
still commits (no error). -/
theorem resubmission_duplicates_items (db : DB) (p : OrderPayload) (now1 now2 : Nat)
    (h1 : ∀ q ∈ db.pedidos, q.id_pedido ≠ p.orderId)
    (h2 : ∀ it ∈ db.itens, it.id_pedido ≠ p.orderId)
    (h3 : ∀ c ∈ db.comps, c.id_item_pedido < db.nextItemId)
    (h4 : 1 ≤ db.nextItemId)
    (h5 : ∀ item ∈ p.items, (item.complements.map (fun c => c.id)).Nodup
        ∧ ∀ c ∈ item.complements, c.id ≠ 0)
    (hne : p.items ≠ []) :
    ((postPedidos (fun _ => true) now2 (writePedido now1 db p) p).success = true)
    ∧ (postPedidos (fun _ => true) now2 (writePedido now1 db p) p).db
        = writePedido now2 (writePedido now1 db p) p
    ∧ ∃ o ∈ getPedidos (writePedido now2 (writePedido now1 db p) p),
        o.orderId = p.orderId
        ∧ o.items.length = 2 * p.items.length
        ∧ 0 < o.items.length := by
  have hrun : runItems (fun _ => true) p.orderId p.items
      (insertPedido (writePedido now1 db p) (pedidoRowOfPayload p now2)) 1 =
      .ok (writeItems p.orderId p.items
        (insertPedido (writePedido now1 db p) (pedidoRowOfPayload p now2)),
        1 + insertsCost p.items) :=
    runItems_all_ok _ _ _ _ _ (fun _ _ => rfl)
  have hresb : (postPedidos (fun _ => true) now2 (writePedido now1 db p) p).success = true
      ∧ (postPedidos (fun _ => true) now2 (writePedido now1 db p) p).db
        = writePedido now2 (writePedido now1 db p) p := by
    simp only [postPedidos, if_pos (show ((fun _ => true) 0 : Bool) = true from rfl), hrun]
    exact ⟨rfl, rfl⟩
  refine ⟨hresb.1, hresb.2, ?_⟩
  have hdb1 := writePedido_shape db p now1 h1
  have hex : ∃ q ∈ (writePedido now1 db p).pedidos,
      q.id_pedido = (pedidoRowOfPayload p now2).id_pedido :=
    writePedido_mem_after now1 db p
  have hdb2 : writePedido now2 (writePedido now1 db p) p = { db with
      pedidos := db.pedidos ++ [pedidoRowOfPayload p now1]
      itens := db.itens ++ newItemRows p.orderId db.nextItemId (p.items ++ p.items)
      comps := db.comps ++ newCompRows db.nextItemId (p.items ++ p.items)
      nextItemId := db.nextItemId + (p.items ++ p.items).length } := by
    rw [writePedido, writeItems_eq, insertPedido, if_pos hex, hdb1,
      newItemRows_append, newCompRows_append]
    simp only [List.append_assoc, List.length_append]
    congr 1
    omega
  obtain ⟨o, hmem, hoid, hlen, -, -⟩ :=
    written_order_read_back db (pedidoRowOfPayload p now1) db.nextItemId
      (p.items ++ p.items) (writePedido now2 (writePedido now1 db p) p) hdb2 h1 h2 h3 h4
      (by
        intro item hitem
        exact h5 item (by
          rcases List.mem_append.mp hitem with h | h
          · exact h
          · exact h))
  refine ⟨o, hmem, hoid, ?_, ?_⟩
  · rw [hlen, List.length_append]
    omega
  · rw [hlen, List.length_append]
    have : p.items.length ≠ 0 := by
      intro hc
      exact hne (List.length_eq_zero.mp hc)
    omega

theorem resubmission_duplicates_items_witness :
    ∃ o ∈ getPedidos (writePedido 998 (writePedido 999 dbW payW) payW),
      o.orderId = "o9" ∧ o.items.length = 4 := by
  obtain ⟨-, -, o, hmem, hoid, hlen, -⟩ :=
    resubmission_duplicates_items dbW payW 999 998 (by decide) (by decide)
      (by decide) (by decide) (by decide) (by decide)
  exact ⟨o, hmem, hoid, hlen⟩

end NeonOrders
